import Mathlib

/-!
Shallow embedding of `QHalRemoteComponent`
(src/src/halremote/qhalremotecomponent.cpp), the client side of the HAL
remote-component protocol, together with proofs of the specified
properties.  The controller state, the wire envelopes and every handler
are translated directly from the C++ source; the event loop is modelled
as a step function over an explicit event alphabet.  A handler returns
`Option RC`: `none` models a NULL-pointer dereference (a crash of the
C++ program), `some s` the successor state.
-/

set_option maxHeartbeats 1000000

namespace HalRemote

/-- Pin value types, mirroring `QHalPin::HalPinType` / `pb::ValueType`. -/
inductive HalPinType
  | Float
  | Bit
  | S32
  | U32
  deriving DecidableEq

/-- Pin directions, mirroring `QHalPin::HalPinDirection`; `IOPin` renders
the source's `QHalPin::IO`. -/
inductive HalPinDirection
  | In
  | Out
  | IOPin
  deriving DecidableEq

/-- A scalar pin value.  The program stores pin values as `QVariant`, the
wire protocol as one of four typed fields.  Values are only ever copied
between pins and messages, never computed with, so the carrier of the C++
`double` is modelled by an opaque `Int` payload. -/
inductive HalValue
  | hfloat (v : Int)
  | hbit (v : Bool)
  | hs32 (v : Int)
  | hu32 (v : Nat)
  deriving DecidableEq

/-- `QVariant::toDouble` on the four value kinds (numeric payloads are the
opaque surrogates, booleans convert to 0/1). -/
def HalValue.asDouble : HalValue → Int
  | hfloat v => v
  | hbit b => if b then 1 else 0
  | hs32 v => v
  | hu32 v => Int.ofNat v

/-- `QVariant::toBool` on the four value kinds. -/
def HalValue.asBool : HalValue → Bool
  | hfloat v => decide (v ≠ 0)
  | hbit b => b
  | hs32 v => decide (v ≠ 0)
  | hu32 v => decide (v ≠ 0)

/-- `QVariant::toInt` on the four value kinds. -/
def HalValue.asS32 : HalValue → Int
  | hfloat v => v
  | hbit b => if b then 1 else 0
  | hs32 v => v
  | hu32 v => Int.ofNat v

/-- `QVariant::toUInt` on the four value kinds. -/
def HalValue.asU32 : HalValue → Nat
  | hfloat v => v.toNat
  | hbit b => if b then 1 else 0
  | hs32 v => v.toNat
  | hu32 v => v

/-- A `QHalPin` object.  Pins are owned by the QML container item and
survive sessions of the remote component; the registry references them.
Modelled from the spec: the pin class itself is not under src/, its
attributes are §3 of the design (name, type, direction, enabled, value,
synced, server handle). -/
structure HalPin where
  name : String
  ptype : HalPinType
  direction : HalPinDirection
  enabled : Bool
  value : HalValue
  synced : Bool
  handle : Nat
  deriving DecidableEq

/-- The container item's pins, flattened: `recurseObjects` collects every
`QHalPin` descendant of `m_containerItem` in traversal order.  Pin
identity is its (unique) name; mutation goes through `containerSet`. -/
def containerGet : List HalPin → String → Option HalPin
  | [], _ => none
  | p :: rest, n => if p.name = n then some p else containerGet rest n

/-- Mutate the container pin named `n` (a pointer write in the source). -/
def containerSet : List HalPin → String → (HalPin → HalPin) → List HalPin
  | [], _, _ => []
  | p :: rest, n, f => (if p.name = n then f p else p) :: containerSet rest n f

/-- Strict ordering on strings (character-wise), used to model the key
order of `QMap<QString, QHalPin*>`.  No property depends on the exact
collation, only on insertion being idempotent per key. -/
def strLt : List Char → List Char → Bool
  | [], [] => false
  | [], _ :: _ => true
  | _ :: _, [] => false
  | a :: as, b :: bs => if a < b then true else if b < a then false else strLt as bs

/-- `QMap<QString, QHalPin*>` insertion for `m_pinsByName`: keys are kept
sorted and unique (`QMap` iterates in key order). -/
def mapInsert (n : String) : List String → List String
  | [] => [n]
  | m :: rest =>
    if n = m then m :: rest
    else if strLt n.data m.data then n :: m :: rest
    else m :: mapInsert n rest

/-- `m_pinsByHandle.insert(handle, pin)`: overwrite the entry for an
existing key, append otherwise. -/
def handleInsert (h : Nat) (n : String) : List (Nat × String) → List (Nat × String)
  | [] => [(h, n)]
  | e :: rest => if e.1 = h then (h, n) :: rest else e :: handleInsert h n rest

/-- `m_pinsByHandle.value(handle)`: `none` models the NULL pointer QHash
returns for an absent key. -/
def handleLookup : List (Nat × String) → Nat → Option String
  | [], _ => none
  | e :: rest, h => if e.1 = h then some e.2 else handleLookup rest h

/-- The `pb::ContainerType` discriminators consumed or emitted by the
component; `MT_OTHER` stands for every other wire value (both handlers
ignore unknown types). -/
inductive MsgType
  | MT_HALRCOMP_BIND
  | MT_HALRCOMP_SET
  | MT_PING
  | MT_PING_ACKNOWLEDGE
  | MT_HALRCOMP_BIND_CONFIRM
  | MT_HALRCOMP_BIND_REJECT
  | MT_HALRCOMP_SET_REJECT
  | MT_HALRCOMP_FULL_UPDATE
  | MT_HALRCOMP_INCREMENTAL_UPDATE
  | MT_HALRCOMMAND_ERROR
  | MT_OTHER
  deriving DecidableEq

/-- A `pb::Pin` sub-message: every field is optional, as in protobuf. -/
structure PbPin where
  name : Option String := none
  handle : Option Nat := none
  ptype : Option HalPinType := none
  dir : Option HalPinDirection := none
  halfloat : Option Int := none
  halbit : Option Bool := none
  hals32 : Option Int := none
  halu32 : Option Nat := none
  deriving DecidableEq

/-- A `pb::Component` sub-message. -/
structure PbComponent where
  name : Option String := none
  pin : List PbPin := []
  deriving DecidableEq

/-- `pb::ProtocolParameters` (only `keepalive_timer` is consumed). -/
structure PbProtocolParameters where
  keepalive_timer : Nat := 0
  deriving DecidableEq

/-- A wire envelope (`pb::Container`): discriminator plus the optional
repeated fields the component touches. -/
structure PbContainer where
  mtype : MsgType
  comp : List PbComponent := []
  pin : List PbPin := []
  note : List String := []
  pparams : Option PbProtocolParameters := none
  deriving DecidableEq

/-- Channel sub-states (`m_sState`, `m_cState`). -/
inductive SocketState
  | Down
  | Trying
  | Up
  deriving DecidableEq

/-- `QHalRemoteComponent::State`. -/
inductive State
  | Disconnected
  | Connecting
  | Connected
  | Error
  deriving DecidableEq

/-- `QHalRemoteComponent::ConnectionError`. -/
inductive ConnectionError
  | NoError
  | BindError
  | PinChangeError
  | CommandError
  | TimeoutError
  | SocketError
  deriving DecidableEq

/-- The full controller state: the member variables of
`QHalRemoteComponent` plus the container pins it references, the
socket/timer status and the ordered list of envelopes sent on the
command socket. -/
structure RC where
  name : String
  heartbeatPeriod : Int
  sState : SocketState
  cState : SocketState
  connectionState : State
  error : ConnectionError
  errorString : String
  ready : Bool
  container : List HalPin
  pinsByName : List String
  pinsByHandle : List (Nat × String)
  socketsUp : Bool
  subscribed : Bool
  halrcmdTimerActive : Bool
  halrcompTimerActive : Bool
  halrcompTimerInterval : Nat
  halrcmdPingOutstanding : Bool
  halrcompPingOutstanding : Bool
  sent : List PbContainer
  deriving DecidableEq

/-- The loop body of `QHalRemoteComponent::unsyncPins`: iterate over the
registered names and clear `synced` on each referenced pin. -/
def unsyncAll (reg : List String) (c : List HalPin) : List HalPin :=
  reg.foldl (fun c n => containerSet c n (fun p => { p with synced := false })) c

/-- `QHalRemoteComponent::unsyncPins`: clear `synced` on every pin
registered in `m_pinsByName`. -/
def unsyncPins (s : RC) : RC :=
  { s with container := unsyncAll s.pinsByName s.container }

/-- `QHalRemoteComponent::startHalrcmdHeartbeat`: reset the outstanding
flag, start the timer only when the configured period is positive. -/
def startHalrcmdHeartbeat (s : RC) : RC :=
  let s1 := { s with halrcmdPingOutstanding := false }
  if s1.heartbeatPeriod > 0 then { s1 with halrcmdTimerActive := true } else s1

/-- `QHalRemoteComponent::stopHalrcmdHeartbeat`. -/
def stopHalrcmdHeartbeat (s : RC) : RC :=
  { s with halrcmdTimerActive := false }

/-- `QHalRemoteComponent::startHalrcompHeartbeat`. -/
def startHalrcompHeartbeat (s : RC) (interval : Nat) : RC :=
  let s1 := { s with halrcompTimerActive := false, halrcompPingOutstanding := false }
  if interval > 0 then
    { s1 with halrcompTimerInterval := interval, halrcompTimerActive := true }
  else s1

/-- `QHalRemoteComponent::stopHalrcompHeartbeat`. -/
def stopHalrcompHeartbeat (s : RC) : RC :=
  { s with halrcompTimerActive := false }

/-- `QHalRemoteComponent::refreshHalrcompHeartbeat`: stop and restart the
timer with its unchanged interval — the identity in this untimed model. -/
def refreshHalrcompHeartbeat (s : RC) : RC := s

/-- `QHalRemoteComponent::updateState`: on leaving Connected unsync all
registered pins; on entering Connected start the command heartbeat,
otherwise stop both heartbeats. -/
def updateState (s : RC) (st : State) : RC :=
  if st ≠ s.connectionState then
    let s1 := if s.connectionState = State.Connected then unsyncPins s else s
    let s2 := { s1 with connectionState := st }
    if s2.connectionState = State.Connected then startHalrcmdHeartbeat s2
    else stopHalrcompHeartbeat (stopHalrcmdHeartbeat s2)
  else s

/-- `QHalRemoteComponent::updateError`. -/
def updateError (s : RC) (e : ConnectionError) (str : String) : RC :=
  { s with error := e, errorString := str }

/-- `QHalRemoteComponent::sendHalrcmdMessage`: enqueue the serialized
envelope on the command socket (send failures are not modelled). -/
def sendHalrcmdMessage (s : RC) (msg : PbContainer) : RC :=
  { s with sent := s.sent ++ [msg] }

/-- `QHalRemoteComponent::addPins`: register every container pin whose
name is non-empty and which is enabled into `m_pinsByName` (and connect
its valueChanged signal, modelled by registry membership). -/
def addPins (s : RC) : RC :=
  { s with pinsByName :=
      (s.container.foldl
        (fun reg p => if p.name = "" ∨ p.enabled = false then reg else mapInsert p.name reg)
        s.pinsByName) }

/-- `QHalRemoteComponent::removePins`: drop both indexes (the pins
themselves stay in the container). -/
def removePins (s : RC) : RC :=
  { s with pinsByHandle := [], pinsByName := [] }

/-- Registered pin pointers, i.e. the values of `m_pinsByName` in key
order. -/
def registeredPins (s : RC) : List HalPin :=
  s.pinsByName.filterMap (fun n => containerGet s.container n)

/-- The pin sub-message built inside `QHalRemoteComponent::bind`:
fully-qualified name, type, direction and the value field selected by the
pin's type; no handle. -/
def bindPinMsg (comp : String) (p : HalPin) : PbPin :=
  let base : PbPin := { name := some (comp ++ "." ++ p.name),
                        ptype := some p.ptype, dir := some p.direction }
  match p.ptype with
  | HalPinType.Float => { base with halfloat := some p.value.asDouble }
  | HalPinType.Bit => { base with halbit := some p.value.asBool }
  | HalPinType.S32 => { base with hals32 := some p.value.asS32 }
  | HalPinType.U32 => { base with halu32 := some p.value.asU32 }

/-- The BIND envelope built by `QHalRemoteComponent::bind`: one component
sub-message carrying the component name and one pin sub-message per
registered pin. -/
def bindEnvelope (s : RC) : PbContainer :=
  { mtype := MsgType.MT_HALRCOMP_BIND,
    comp := [{ name := some s.name,
               pin := (registeredPins s).map (bindPinMsg s.name) }] }

/-- `QHalRemoteComponent::bind`: build the BIND envelope and send it. -/
def bind (s : RC) : RC :=
  sendHalrcmdMessage s (bindEnvelope s)

/-- `QHalRemoteComponent::subscribe`: sub-state Trying, subscribe the
update socket to the component-name topic. -/
def subscribe (s : RC) : RC :=
  { s with sState := SocketState.Trying, subscribed := true }

/-- `QHalRemoteComponent::unsubscribe`. -/
def unsubscribe (s : RC) : RC :=
  { s with sState := SocketState.Down, subscribed := false }

/-- The value carried by a `pb::Pin` sub-message, with the field priority
of `QHalRemoteComponent::pinUpdate` (halfloat, then halbit, hals32,
halu32). -/
def pbPinValue (rp : PbPin) : Option HalValue :=
  match rp.halfloat with
  | some v => some (HalValue.hfloat v)
  | none => match rp.halbit with
    | some b => some (HalValue.hbit b)
    | none => match rp.hals32 with
      | some v => some (HalValue.hs32 v)
      | none => match rp.halu32 with
        | some v => some (HalValue.hu32 v)
        | none => none

/-- `QHalPin::setValue(v, true)` on the container pin named `n`.
Modelled from the spec: the pin class is not under src/; writing with the
"from remote" flag applies the value, sets `synced = true` and suppresses
the outbound SET. -/
def setPinValueFromRemote (s : RC) (n : String) (v : HalValue) : RC :=
  { s with container :=
      (containerSet s.container n (fun p => { p with value := v, synced := true })) }

/-- `QHalRemoteComponent::pinUpdate`: apply the first present value field
of the sub-message to the local pin.  `localPin = none` models the NULL
pointer from a failed lookup: dereferencing it (any value field present)
is a crash, `none`. -/
def pinUpdate (rp : PbPin) (localPin : Option String) (s : RC) : Option RC :=
  match pbPinValue rp with
  | none => some s
  | some v =>
    match localPin with
    | none => none
    | some n => some (setPinValueFromRemote s n v)

/-- The pin sub-message built inside `QHalRemoteComponent::pinChange`:
handle, fully-qualified name, type and the value field selected by the
pin's type (no direction). -/
def setPinMsg (comp : String) (p : HalPin) : PbPin :=
  let base : PbPin := { handle := some p.handle,
                        name := some (comp ++ "." ++ p.name),
                        ptype := some p.ptype }
  match p.ptype with
  | HalPinType.Float => { base with halfloat := some p.value.asDouble }
  | HalPinType.Bit => { base with halbit := some p.value.asBool }
  | HalPinType.S32 => { base with hals32 := some p.value.asS32 }
  | HalPinType.U32 => { base with halu32 := some p.value.asU32 }

/-- `QHalRemoteComponent::pinChange`: ignore the write unless Connected;
ignore `In` pins; otherwise send a SET envelope with one pin
sub-message. -/
def pinChange (s : RC) (p : HalPin) : RC :=
  if s.connectionState ≠ State.Connected then s
  else if p.direction = HalPinDirection.In then s
  else sendHalrcmdMessage s
    { mtype := MsgType.MT_HALRCOMP_SET, pin := [setPinMsg s.name p] }

/-- `QHalRemoteComponent::connectSockets` (the success path; connect
failures surface through the `pollErr` event instead). -/
def connectSockets (s : RC) : RC :=
  { s with socketsUp := true }

/-- `QHalRemoteComponent::start`: command sub-state Trying, state
Connecting, open sockets, register pins, send BIND. -/
def start (s : RC) : RC :=
  let s1 := { s with cState := SocketState.Trying }
  let s2 := updateState s1 State.Connecting
  let s3 := connectSockets s2
  bind (addPins s3)

/-- `QHalRemoteComponent::stop`: stop both heartbeats, close sockets,
drop both pin indexes, go Disconnected, clear the error. -/
def stop (s : RC) : RC :=
  let s1 := stopHalrcompHeartbeat (stopHalrcmdHeartbeat s)
  let s2 := { s1 with socketsUp := false, subscribed := false }
  let s3 := removePins s2
  let s4 := updateState s3 State.Disconnected
  updateError s4 ConnectionError.NoError ""

/-- `QHalRemoteComponent::setReady` (with `m_componentCompleted` true):
rising edge starts a session, falling edge stops it. -/
def setReady (s : RC) (arg : Bool) : RC :=
  if s.ready ≠ arg then
    let s1 := { s with ready := arg }
    if s1.ready then start s1 else stop s1
  else s

/-- Everything after the first `'.'`, or `none` when there is no dot
(`name.indexOf(".")` / `name.mid(dotIndex + 1)` in the source). -/
def afterFirstDot : List Char → Option (List Char)
  | [] => none
  | c :: rest => if c = '.' then some rest else afterFirstDot rest

/-- Strip the leading `<component>.` prefix exactly as the FULL_UPDATE
handler does: drop everything through the first dot when one exists. -/
def stripLocalName (n : String) : String :=
  match afterFirstDot n.data with
  | none => n
  | some rest => String.mk rest

/-- `m_pinsByName.value(name)`: the registered pin pointer, or NULL
(`none`) when the name is not registered. -/
def registryLookup (s : RC) (n : String) : Option String :=
  if n ∈ s.pinsByName then some n else none

/-- Run an option-valued handler over a list, stopping at the first
crash.  Used for the per-pin and per-component loops of the receive
handlers. -/
def runSteps {α : Type} (f : RC → α → Option RC) : RC → List α → Option RC
  | s, [] => some s
  | s, a :: rest =>
    match f s a with
    | none => none
    | some s1 => runSteps f s1 rest

/-- One iteration of the FULL_UPDATE pin loop: strip the component
prefix, look the pin up by name, store the server handle on the pin
(`localPin->setHandle` — a crash when the lookup returned NULL), insert
it into the handle index, apply the value. -/
def fullUpdatePin (s : RC) (rp : PbPin) : Option RC :=
  let n := stripLocalName (rp.name.getD "")
  match registryLookup s n with
  | none => none
  | some pinName =>
    let s1 := { s with
      container :=
        (containerSet s.container pinName (fun p => { p with handle := rp.handle.getD 0 })),
      pinsByHandle := handleInsert (rp.handle.getD 0) pinName s.pinsByHandle }
    pinUpdate rp (some pinName) s1

/-- One iteration of the FULL_UPDATE component loop: process the pins,
then — once per session — mark the subscription Up, clear the error and
go Connected. -/
def fullUpdateComp (s : RC) (c : PbComponent) : Option RC :=
  match runSteps fullUpdatePin s c.pin with
  | none => none
  | some s1 =>
    if s1.sState ≠ SocketState.Up then
      some (updateState
        (updateError { s1 with sState := SocketState.Up } ConnectionError.NoError "")
        State.Connected)
    else some s1

/-- One iteration of the INCREMENTAL_UPDATE pin loop: look the pin up by
handle and apply the value (a NULL lookup result crashes inside
`pinUpdate` when a value field is present). -/
def incrementalUpdatePin (s : RC) (rp : PbPin) : Option RC :=
  pinUpdate rp (handleLookup s.pinsByHandle (rp.handle.getD 0)) s

/-- The newline-terminated concatenation of the envelope's `note`
strings, as built by both receive handlers. -/
def notesString (notes : List String) : String :=
  String.join (notes.map (fun n => n ++ "\n"))

/-- `QHalRemoteComponent::halrcompMessageReceived`: dispatch on the
envelope type of a message from the update socket. -/
def halrcompMessageReceived (s : RC) (rx : PbContainer) : Option RC :=
  if rx.mtype = MsgType.MT_HALRCOMP_INCREMENTAL_UPDATE then
    match runSteps incrementalUpdatePin s rx.pin with
    | none => none
    | some s1 =>
      let s2 :=
        if s1.sState ≠ SocketState.Up then
          updateState
            (updateError { s1 with sState := SocketState.Up } ConnectionError.NoError "")
            State.Connected
        else s1
      some (refreshHalrcompHeartbeat s2)
  else if rx.mtype = MsgType.MT_HALRCOMP_FULL_UPDATE then
    match runSteps fullUpdateComp s rx.comp with
    | none => none
    | some s1 =>
      match rx.pparams with
      | some pp => some (startHalrcompHeartbeat s1 pp.keepalive_timer)
      | none => some s1
  else if rx.mtype = MsgType.MT_PING then
    some (refreshHalrcompHeartbeat s)
  else if rx.mtype = MsgType.MT_HALRCOMMAND_ERROR then
    let s1 := { s with sState := SocketState.Down }
    some (updateState
      (updateError s1 ConnectionError.CommandError (notesString rx.note)) State.Error)
  else some s

/-- `QHalRemoteComponent::halrcmdMessageReceived`: dispatch on the
envelope type of a reply on the command socket. -/
def halrcmdMessageReceived (s : RC) (rx : PbContainer) : RC :=
  if rx.mtype = MsgType.MT_PING_ACKNOWLEDGE then
    let s1 := { s with cState := SocketState.Up, halrcmdPingOutstanding := false }
    if s1.connectionState = State.Error ∧ s1.error = ConnectionError.TimeoutError then
      subscribe (updateState (updateError s1 ConnectionError.NoError "") State.Connected)
    else s1
  else if rx.mtype = MsgType.MT_HALRCOMP_BIND_CONFIRM then
    subscribe { s with cState := SocketState.Up }
  else if rx.mtype = MsgType.MT_HALRCOMP_BIND_REJECT
      ∨ rx.mtype = MsgType.MT_HALRCOMP_SET_REJECT then
    let s1 := { s with cState := SocketState.Down }
    let s2 :=
      if rx.mtype = MsgType.MT_HALRCOMP_BIND_REJECT then
        updateError s1 ConnectionError.BindError (notesString rx.note)
      else
        updateError s1 ConnectionError.PinChangeError (notesString rx.note)
    updateState s2 State.Error
  else s

/-- The PING envelope built by both heartbeat ticks. -/
def pingEnvelope : PbContainer :=
  { mtype := MsgType.MT_PING }

/-- `QHalRemoteComponent::halrcmdHeartbeatTimerTick`: on an outstanding
ping go Error(Timeout) (unsubscribing first); in either case send a PING
and mark it outstanding. -/
def halrcmdHeartbeatTimerTick (s : RC) : RC :=
  let s1 :=
    if s.halrcmdPingOutstanding then
      updateState
        (updateError (unsubscribe { s with cState := SocketState.Trying })
          ConnectionError.TimeoutError "Halrcmd service timed out")
        State.Error
    else s
  { sendHalrcmdMessage s1 pingEnvelope with halrcmdPingOutstanding := true }

/-- `QHalRemoteComponent::halrcompHeartbeatTimerTick`: unconditionally go
Error(Timeout), then send a recovery PING on the command socket. -/
def halrcompHeartbeatTimerTick (s : RC) : RC :=
  let s1 := updateState
    (updateError (unsubscribe { s with cState := SocketState.Trying })
      ConnectionError.TimeoutError "Halrcomp service timed out")
    State.Error
  { sendHalrcmdMessage s1 pingEnvelope with halrcompPingOutstanding := true }

/-- `QHalRemoteComponent::pollError`: a transport exception surfaces as
Error(Socket). -/
def pollError (s : RC) (errorNum : Int) (errorMsg : String) : RC :=
  updateState
    (updateError s ConnectionError.SocketError
      ("Error " ++ toString errorNum ++ ": " ++ errorMsg))
    State.Error

/-- A local (UI-side) write of the container pin named `n`.  Modelled
from the spec for the missing pin class: the write stores the value with
`synced = false`, and when the pin is registered its valueChanged signal
invokes `pinChange`. -/
def localPinWrite (s : RC) (n : String) (v : HalValue) : RC :=
  match containerGet s.container n with
  | none => s
  | some _ =>
    let s1 := { s with container :=
        (containerSet s.container n (fun p => { p with value := v, synced := false })) }
    if n ∈ s1.pinsByName then
      match containerGet s1.container n with
      | some p => pinChange s1 p
      | none => s1
    else s1

/-- The serialized events of the controller's event loop: property edges,
socket deliveries, timer ticks, local writes and poller errors. -/
inductive Event
  | setReadyEv (b : Bool)
  | halrcompMsg (topic : String) (rx : PbContainer)
  | halrcmdMsg (rx : PbContainer)
  | halrcmdTick
  | halrcompTick
  | pinWrite (n : String) (v : HalValue)
  | pollErr (num : Int) (msg : String)

/-- One event-loop step.  Socket deliveries require open sockets, timer
ticks an active timer (a stopped Qt timer does not fire); otherwise the
event is a no-op.  `none` is a crash of the handler. -/
def step (s : RC) : Event → Option RC
  | Event.setReadyEv b => some (setReady s b)
  | Event.halrcompMsg _ rx => if s.socketsUp then halrcompMessageReceived s rx else some s
  | Event.halrcmdMsg rx => if s.socketsUp then some (halrcmdMessageReceived s rx) else some s
  | Event.halrcmdTick =>
    if s.halrcmdTimerActive then some (halrcmdHeartbeatTimerTick s) else some s
  | Event.halrcompTick =>
    if s.halrcompTimerActive then some (halrcompHeartbeatTimerTick s) else some s
  | Event.pinWrite n v => some (localPinWrite s n v)
  | Event.pollErr num msg => if s.socketsUp then some (pollError s num msg) else some s

/-- Run a list of events from a state. -/
def runEvents : RC → List Event → Option RC
  | s, [] => some s
  | s, e :: rest =>
    match step s e with
    | none => none
    | some s1 => runEvents s1 rest

/-- The freshly constructed component: the constructor's member
initializers, with the container pins and the configured name and
heartbeat period. -/
def initRC (name : String) (heartbeatPeriod : Int) (container : List HalPin) : RC :=
  { name := name, heartbeatPeriod := heartbeatPeriod,
    sState := SocketState.Down, cState := SocketState.Down,
    connectionState := State.Disconnected, error := ConnectionError.NoError,
    errorString := "", ready := false, container := container,
    pinsByName := [], pinsByHandle := [],
    socketsUp := false, subscribed := false,
    halrcmdTimerActive := false, halrcompTimerActive := false,
    halrcompTimerInterval := 0,
    halrcmdPingOutstanding := false, halrcompPingOutstanding := false,
    sent := [] }

/-- States reachable from `s0` by event-loop steps. -/
inductive Reachable (s0 : RC) : RC → Prop
  | refl : Reachable s0 s0
  | tail {s s' : RC} (e : Event) : Reachable s0 s → step s e = some s' → Reachable s0 s'

/-- Every container pin named `n` has its `synced` flag cleared. -/
def pinUnsynced (c : List HalPin) (n : String) : Prop :=
  ∀ p ∈ c, p.name = n → p.synced = false

/-- With `heartbeat_period = 0` the command heartbeat timer must never be
running (`startHalrcmdHeartbeat` only starts it for a positive period). -/
def zeroPeriodInv (s : RC) : Prop :=
  s.heartbeatPeriod = 0 ∧ s.halrcmdTimerActive = false

/-- A BIND pin sub-message carries exactly the value field selected by
the pin's type, initialized from the pin's current value. -/
def bindValueOk (p : HalPin) (pm : PbPin) : Prop :=
  match p.ptype with
  | HalPinType.Float => pm.halfloat = some p.value.asDouble ∧ pm.halbit = none
      ∧ pm.hals32 = none ∧ pm.halu32 = none
  | HalPinType.Bit => pm.halfloat = none ∧ pm.halbit = some p.value.asBool
      ∧ pm.hals32 = none ∧ pm.halu32 = none
  | HalPinType.S32 => pm.halfloat = none ∧ pm.halbit = none
      ∧ pm.hals32 = some p.value.asS32 ∧ pm.halu32 = none
  | HalPinType.U32 => pm.halfloat = none ∧ pm.halbit = none
      ∧ pm.hals32 = none ∧ pm.halu32 = some p.value.asU32

/-- Concrete fixture: a Float/Out pin named `x` (scenario S1 of the spec). -/
def pinX : HalPin :=
  { name := "x", ptype := HalPinType.Float, direction := HalPinDirection.Out,
    enabled := true, value := HalValue.hfloat 0, synced := false, handle := 0 }

/-- Concrete fixture: a Bit/In pin named `y` (scenario S1 of the spec). -/
def pinY : HalPin :=
  { name := "y", ptype := HalPinType.Bit, direction := HalPinDirection.In,
    enabled := true, value := HalValue.hbit false, synced := false, handle := 0 }

/-- A FULL_UPDATE envelope assigning handle 10 / value 1.0 to `comp.x`. -/
def fullUpd1 : PbContainer :=
  { mtype := MsgType.MT_HALRCOMP_FULL_UPDATE,
    comp := [{ name := some "comp",
               pin := [{ name := some "comp.x", handle := some 10,
                         halfloat := some 1 }] }] }

/-- A second FULL_UPDATE re-numbering `comp.x` to handle 20 / value 2.0. -/
def fullUpd2 : PbContainer :=
  { mtype := MsgType.MT_HALRCOMP_FULL_UPDATE,
    comp := [{ name := some "comp",
               pin := [{ name := some "comp.x", handle := some 20,
                         halfloat := some 2 }] }] }

/-- A FULL_UPDATE that also carries protocol parameters (keepalive 5). -/
def fullUpdKeep : PbContainer :=
  { fullUpd1 with pparams := some { keepalive_timer := 5 } }

/-- An INCREMENTAL_UPDATE for the known handle 10. -/
def incKnown : PbContainer :=
  { mtype := MsgType.MT_HALRCOMP_INCREMENTAL_UPDATE,
    pin := [{ handle := some 10, halfloat := some 7 }] }

/-- An INCREMENTAL_UPDATE carrying the unknown handle 99. -/
def incUnknown : PbContainer :=
  { mtype := MsgType.MT_HALRCOMP_INCREMENTAL_UPDATE,
    pin := [{ handle := some 99, halfloat := some 5 }] }

/-- An INCREMENTAL_UPDATE with no pin sub-messages. -/
def incEmpty : PbContainer :=
  { mtype := MsgType.MT_HALRCOMP_INCREMENTAL_UPDATE }

/-- A PING_ACKNOWLEDGE reply. -/
def pingAckEnv : PbContainer :=
  { mtype := MsgType.MT_PING_ACKNOWLEDGE }

/-- A SET_REJECT reply with one note. -/
def setRejEnv : PbContainer :=
  { mtype := MsgType.MT_HALRCOMP_SET_REJECT, note := ["no"] }

/-- The initial state used by all concrete runs. -/
def rc0 : RC := initRC "comp" 3000 [pinX]

/-- Session start with the two-pin container of scenario S1. -/
def c4State : RC :=
  (step (initRC "comp" 3000 [pinX, pinY]) (Event.setReadyEv true)).getD
    (initRC "comp" 3000 [pinX, pinY])

/-- Session start followed by the first full update: the happy path. -/
def traceHappy : List Event :=
  [Event.setReadyEv true, Event.halrcompMsg "comp" fullUpd1]

/-- The Connected state of the happy path. -/
def cHappy : RC := (runEvents rc0 traceHappy).getD rc0

/-- Two-session trace: connect, full update, stop, start again. -/
def traceC1 : List Event :=
  traceHappy ++ [Event.setReadyEv false, Event.setReadyEv true]

/-- The Connecting state of the restarted session. -/
def c1State : RC := (runEvents rc0 traceC1).getD rc0

/-- After a SET_REJECT in the happy state (leaves Connected). -/
def cRejectState : RC :=
  (step cHappy (Event.halrcmdMsg setRejEnv)).getD rc0

/-- The container pin `x` after the SET_REJECT transition. -/
def pinXr : HalPin := (containerGet cRejectState.container "x").getD pinX

/-- Happy path, one answered ping, then one unanswered ping period. -/
def traceC6 : List Event :=
  traceHappy ++ [Event.halrcmdTick, Event.halrcmdTick]

/-- The state just before the command-channel timeout tick. -/
def c6Pre : RC :=
  (runEvents rc0 (traceHappy ++ [Event.halrcmdTick])).getD rc0

/-- The state after the command-channel timeout tick. -/
def c6State : RC := (runEvents rc0 traceC6).getD rc0

/-- The state after a PING_ACK arrives in the Error(Timeout) state. -/
def cPingAckState : RC := (step c6State (Event.halrcmdMsg pingAckEnv)).getD rc0

/-- Two successive full updates re-numbering the pin handle. -/
def traceC7 : List Event :=
  traceHappy ++ [Event.halrcompMsg "comp" fullUpd2]

/-- The state after the second full update. -/
def c7State : RC := (runEvents rc0 traceC7).getD rc0

/-- Happy path followed by an incremental update for a known handle. -/
def traceC8good : List Event :=
  traceHappy ++ [Event.halrcompMsg "comp" incKnown]

/-- The state after the known-handle incremental update. -/
def c8Good : RC := (runEvents rc0 traceC8good).getD rc0

/-- Happy path followed by an incremental update for an unknown handle. -/
def traceC8bad : List Event :=
  traceHappy ++ [Event.halrcompMsg "comp" incUnknown]

/-- Session start only (Connecting, subscription sub-state Down). -/
def c10Pre : RC := (runEvents rc0 [Event.setReadyEv true]).getD rc0

/-- An empty incremental update received while still Connecting. -/
def c10State : RC :=
  (step c10Pre (Event.halrcompMsg "comp" incEmpty)).getD rc0

/-- Initial state configured with heartbeat_period = 0. -/
def rc9 : RC := initRC "comp" 0 [pinX]

/-- Period-0 session with a full update that starts the halrcomp timer. -/
def c9State : RC :=
  (runEvents rc9 [Event.setReadyEv true, Event.halrcompMsg "comp" fullUpdKeep]).getD rc9

/-- The state after the recovery tick in the period-0 session. -/
def c9Tick : RC := (step c9State Event.halrcompTick).getD rc9

theorem Reachable.trans {s0 s1 s2 : RC} (h1 : Reachable s0 s1) (h2 : Reachable s1 s2) :
    Reachable s0 s2 := by
  induction h2 with
  | refl => exact h1
  | tail e _ hs ih => exact Reachable.tail e ih hs

theorem runEvents_reachable {s s' : RC} {es : List Event}
    (h : runEvents s es = some s') : Reachable s s' := by
  induction es generalizing s with
  | nil =>
    simp only [runEvents] at h
    cases h
    exact Reachable.refl
  | cons e rest ih =>
    simp only [runEvents] at h
    cases hstep : step s e with
    | none => rw [hstep] at h; cases h
    | some s1 =>
      rw [hstep] at h
      exact Reachable.trans (Reachable.tail e Reachable.refl hstep) (ih h)

theorem runSteps_append {α : Type} (f : RC → α → Option RC) (s : RC) (xs ys : List α) :
    runSteps f s (xs ++ ys) =
      match runSteps f s xs with
      | none => none
      | some s1 => runSteps f s1 ys := by
  induction xs generalizing s with
  | nil => simp [runSteps]
  | cons a rest ih =>
    simp only [List.cons_append, runSteps]
    cases f s a with
    | none => rfl
    | some s1 => exact ih s1

theorem updateState_connectionState (s : RC) (st : State) :
    (updateState s st).connectionState = st := by
  simp only [updateState, startHalrcmdHeartbeat, stopHalrcmdHeartbeat,
    stopHalrcompHeartbeat, unsyncPins]
  split_ifs <;> simp_all

theorem updateState_pinsByName (s : RC) (st : State) :
    (updateState s st).pinsByName = s.pinsByName := by
  simp only [updateState, startHalrcmdHeartbeat, stopHalrcmdHeartbeat,
    stopHalrcompHeartbeat, unsyncPins]
  split_ifs <;> simp_all

theorem updateState_sent (s : RC) (st : State) :
    (updateState s st).sent = s.sent := by
  simp only [updateState, startHalrcmdHeartbeat, stopHalrcmdHeartbeat,
    stopHalrcompHeartbeat, unsyncPins]
  split_ifs <;> simp_all

theorem updateState_pinsByHandle (s : RC) (st : State) :
    (updateState s st).pinsByHandle = s.pinsByHandle := by
  simp only [updateState, startHalrcmdHeartbeat, stopHalrcmdHeartbeat,
    stopHalrcompHeartbeat, unsyncPins]
  split_ifs <;> simp_all

theorem updateState_error (s : RC) (st : State) :
    (updateState s st).error = s.error := by
  simp only [updateState, startHalrcmdHeartbeat, stopHalrcmdHeartbeat,
    stopHalrcompHeartbeat, unsyncPins]
  split_ifs <;> simp_all

theorem updateState_container_of_connected (s : RC) (st : State)
    (hc : s.connectionState = State.Connected) (hne : st ≠ State.Connected) :
    (updateState s st).container = unsyncAll s.pinsByName s.container := by
  simp only [updateState, startHalrcmdHeartbeat, stopHalrcmdHeartbeat,
    stopHalrcompHeartbeat, unsyncPins]
  split_ifs <;> simp_all

theorem updateState_container_of_not_connected (s : RC) (st : State)
    (hc : s.connectionState ≠ State.Connected) :
    (updateState s st).container = s.container := by
  simp only [updateState, startHalrcmdHeartbeat, stopHalrcmdHeartbeat,
    stopHalrcompHeartbeat, unsyncPins]
  split_ifs <;> simp_all

theorem unsyncAll_cons (m : String) (rest : List String) (c : List HalPin) :
    unsyncAll (m :: rest) c =
      unsyncAll rest (containerSet c m (fun p => { p with synced := false })) := rfl

theorem pinUnsynced_containerSet_self (c : List HalPin) (n : String) :
    pinUnsynced (containerSet c n (fun p => { p with synced := false })) n := by
  induction c with
  | nil => intro p hp; cases hp
  | cons q rest ih =>
    intro p hp hpn
    simp only [containerSet, List.mem_cons] at hp
    rcases hp with rfl | hp
    · by_cases hq : q.name = n
      · simp [hq]
      · simp only [if_neg hq] at hpn ⊢
        exact absurd hpn hq
    · exact ih p hp hpn

theorem pinUnsynced_containerSet_mono (c : List HalPin) (m n : String)
    (h : pinUnsynced c n) :
    pinUnsynced (containerSet c m (fun p => { p with synced := false })) n := by
  induction c with
  | nil => intro p hp; cases hp
  | cons q rest ih =>
    intro p hp hpn
    simp only [containerSet, List.mem_cons] at hp
    rcases hp with rfl | hp
    · by_cases hq : q.name = m
      · simp [hq]
      · simp only [if_neg hq] at hpn ⊢
        exact h q (List.mem_cons_self q rest) hpn
    · exact ih (fun p hp hpn => h p (List.mem_cons_of_mem q hp) hpn) p hp hpn

theorem pinUnsynced_unsyncAll_of (reg : List String) (c : List HalPin) (n : String)
    (h : pinUnsynced c n) : pinUnsynced (unsyncAll reg c) n := by
  induction reg generalizing c with
  | nil => exact h
  | cons m rest ih =>
    rw [unsyncAll_cons]
    exact ih _ (pinUnsynced_containerSet_mono c m n h)

theorem pinUnsynced_unsyncAll (reg : List String) (c : List HalPin) (n : String)
    (hn : n ∈ reg) : pinUnsynced (unsyncAll reg c) n := by
  induction reg generalizing c with
  | nil => cases hn
  | cons m rest ih =>
    rw [unsyncAll_cons]
    rcases List.mem_cons.mp hn with rfl | hn'
    · exact pinUnsynced_unsyncAll_of rest _ n (pinUnsynced_containerSet_self c n)
    · exact ih _ hn'

theorem containerGet_containerSet_ne (c : List HalPin) (m n : String)
    (f : HalPin → HalPin) (hf : ∀ p, (f p).name = p.name) (hmn : m ≠ n) :
    containerGet (containerSet c m f) n = containerGet c n := by
  induction c with
  | nil => rfl
  | cons p rest ih =>
    simp only [containerSet, containerGet]
    by_cases hpm : p.name = m
    · rw [if_pos hpm, if_neg (by rw [hf p, hpm]; exact hmn), if_neg (hpm ▸ hmn)]
      exact ih
    · rw [if_neg hpm]
      by_cases hpn : p.name = n
      · rw [if_pos hpn, if_pos hpn]
      · rw [if_neg hpn, if_neg hpn]
        exact ih

theorem containerGet_containerSet_self (c : List HalPin) (n : String)
    (f : HalPin → HalPin) (hf : ∀ p, (f p).name = p.name) (p : HalPin)
    (hp : containerGet c n = some p) :
    containerGet (containerSet c n f) n = some (f p) := by
  induction c with
  | nil => cases hp
  | cons q rest ih =>
    simp only [containerGet] at hp
    simp only [containerSet, containerGet]
    by_cases hq : q.name = n
    · rw [if_pos hq] at hp
      obtain rfl := Option.some.inj hp
      rw [if_pos hq, if_pos (by rw [hf]; exact hq)]
    · rw [if_neg hq] at hp
      rw [if_neg hq, if_neg hq]
      exact ih hp

theorem handleLookup_handleInsert_self (m : List (Nat × String)) (h : Nat) (n : String) :
    handleLookup (handleInsert h n m) h = some n := by
  induction m with
  | nil => simp [handleInsert, handleLookup]
  | cons e rest ih =>
    simp only [handleInsert]
    by_cases he : e.1 = h
    · rw [if_pos he]
      simp [handleLookup]
    · rw [if_neg he]
      simp only [handleLookup, if_neg he]
      exact ih

theorem handleLookup_handleInsert_ne (m : List (Nat × String)) (h h' : Nat) (n : String)
    (hne : h' ≠ h) :
    handleLookup (handleInsert h' n m) h = handleLookup m h := by
  induction m with
  | nil => simp [handleInsert, handleLookup, hne]
  | cons e rest ih =>
    simp only [handleInsert]
    by_cases he : e.1 = h'
    · rw [if_pos he]
      simp only [handleLookup, if_neg hne, if_neg (he ▸ hne : e.1 ≠ h)]
    · rw [if_neg he]
      simp only [handleLookup]
      by_cases heh : e.1 = h
      · rw [if_pos heh, if_pos heh]
      · rw [if_neg heh, if_neg heh]
        exact ih

theorem incrementalUpdatePin_fields {s s1 : RC} {rp : PbPin}
    (h : incrementalUpdatePin s rp = some s1) :
    s1 = { s with container := s1.container } := by
  simp only [incrementalUpdatePin, pinUpdate] at h
  cases hv : pbPinValue rp with
  | none =>
    rw [hv] at h
    cases h
    rfl
  | some v =>
    rw [hv] at h
    cases hl : handleLookup s.pinsByHandle (rp.handle.getD 0) with
    | none => rw [hl] at h; cases h
    | some n =>
      rw [hl] at h
      cases h
      rfl

theorem runSteps_incPins_fields {l : List PbPin} {s s1 : RC}
    (h : runSteps incrementalUpdatePin s l = some s1) :
    s1 = { s with container := s1.container } := by
  induction l generalizing s with
  | nil =>
    simp only [runSteps] at h
    cases h
    rfl
  | cons rp rest ih =>
    simp only [runSteps] at h
    cases hstep : incrementalUpdatePin s rp with
    | none => rw [hstep] at h; cases h
    | some sa =>
      rw [hstep] at h
      have h1 := incrementalUpdatePin_fields hstep
      have h2 := ih h
      rw [h2, h1]

theorem fullUpdatePin_fields {s s1 : RC} {rp : PbPin}
    (h : fullUpdatePin s rp = some s1) :
    s1 = { s with container := s1.container, pinsByHandle := s1.pinsByHandle } := by
  simp only [fullUpdatePin, registryLookup] at h
  by_cases hm : stripLocalName (rp.name.getD "") ∈ s.pinsByName
  · rw [if_pos hm] at h
    simp only [pinUpdate] at h
    cases hv : pbPinValue rp with
    | none =>
      rw [hv] at h
      cases h
      rfl
    | some v =>
      rw [hv] at h
      cases h
      rfl
  · rw [if_neg hm] at h
    cases h

theorem runSteps_fullPins_fields {l : List PbPin} {s s1 : RC}
    (h : runSteps fullUpdatePin s l = some s1) :
    s1 = { s with container := s1.container, pinsByHandle := s1.pinsByHandle } := by
  induction l generalizing s with
  | nil =>
    simp only [runSteps] at h
    cases h
    rfl
  | cons rp rest ih =>
    simp only [runSteps] at h
    cases hstep : fullUpdatePin s rp with
    | none => rw [hstep] at h; cases h
    | some sa =>
      rw [hstep] at h
      have h1 := fullUpdatePin_fields hstep
      have h2 := ih h
      rw [h2, h1]

theorem fullUpdateComp_connected {s s1 : RC} {c : PbComponent}
    (hc : s.connectionState = State.Connected)
    (h : fullUpdateComp s c = some s1) : s1.connectionState = State.Connected := by
  simp only [fullUpdateComp] at h
  cases hrun : runSteps fullUpdatePin s c.pin with
  | none => rw [hrun] at h; cases h
  | some sa =>
    rw [hrun] at h
    dsimp only at h
    have ha := runSteps_fullPins_fields hrun
    by_cases hsS : sa.sState ≠ SocketState.Up
    · rw [if_pos hsS] at h
      cases h
      exact updateState_connectionState _ _
    · rw [if_neg hsS] at h
      cases h
      rw [ha]
      exact hc

theorem runSteps_fullComps_connected {l : List PbComponent} {s s1 : RC}
    (hc : s.connectionState = State.Connected)
    (h : runSteps fullUpdateComp s l = some s1) : s1.connectionState = State.Connected := by
  induction l generalizing s with
  | nil =>
    simp only [runSteps] at h
    cases h
    exact hc
  | cons c rest ih =>
    simp only [runSteps] at h
    cases hstep : fullUpdateComp s c with
    | none => rw [hstep] at h; cases h
    | some sa =>
      rw [hstep] at h
      exact ih (fullUpdateComp_connected hc hstep) h

theorem stop_pinsByName (s : RC) : (stop s).pinsByName = [] := by
  simp only [stop, updateError]
  rw [updateState_pinsByName]
  rfl

theorem start_connectionState (s : RC) : (start s).connectionState = State.Connecting := by
  simp only [start, bind, sendHalrcmdMessage, addPins, connectSockets]
  exact updateState_connectionState _ _

theorem start_container_of_connected (s : RC) (h : s.connectionState = State.Connected) :
    (start s).container = unsyncAll s.pinsByName s.container := by
  simp only [start, bind, sendHalrcmdMessage, addPins, connectSockets]
  exact updateState_container_of_connected _ _ h (by decide)

theorem localPinWrite_connectionState (s : RC) (n : String) (v : HalValue) :
    (localPinWrite s n v).connectionState = s.connectionState := by
  simp only [localPinWrite]
  cases containerGet s.container n with
  | none => rfl
  | some q =>
    simp only []
    split
    · split
      · simp [pinChange, sendHalrcmdMessage]
        split_ifs <;> rfl
      · rfl
    · rfl

theorem halrcmdTick_container_of_connected (s : RC)
    (hconn : s.connectionState = State.Connected) (hout : s.halrcmdPingOutstanding = true) :
    (halrcmdHeartbeatTimerTick s).container = unsyncAll s.pinsByName s.container := by
  simp only [halrcmdHeartbeatTimerTick, if_pos hout, sendHalrcmdMessage]
  exact updateState_container_of_connected _ _ hconn (by decide)

theorem halrcompTick_container_of_connected (s : RC)
    (hconn : s.connectionState = State.Connected) :
    (halrcompHeartbeatTimerTick s).container = unsyncAll s.pinsByName s.container := by
  simp only [halrcompHeartbeatTimerTick, sendHalrcmdMessage]
  exact updateState_container_of_connected _ _ hconn (by decide)

/-- Claim C1, amended: at every transition that leaves `Connected`, every
pin that is registered in the name index both before and after the event
has `synced = false` afterwards.  (The original claim — that this holds
in *every* reachable non-Connected state — fails: `stop()` clears the
registry before the `Disconnected` transition, so `unsyncPins` is a
no-op there and a pin re-registered by a later session can still carry
`synced = true` while `Connecting`; see the counterexample.) -/
theorem c1_unsync_on_leaving_connected (s : RC) (e : Event) (s' : RC)
    (hconn : s.connectionState = State.Connected)
    (hstep : step s e = some s')
    (hne : s'.connectionState ≠ State.Connected) :
    ∀ n ∈ s.pinsByName, n ∈ s'.pinsByName →
      ∀ p ∈ s'.container, p.name = n → p.synced = false := by
  cases e with
  | setReadyEv b =>
    simp only [step] at hstep
    obtain rfl := Option.some.inj hstep
    simp only [setReady] at hne ⊢
    by_cases hr : s.ready ≠ b
    · rw [if_pos hr] at hne ⊢
      dsimp only at hne ⊢
      by_cases hb : b = true
      · rw [if_pos hb] at hne ⊢
        intro n hn _ p hp hpn
        rw [start_container_of_connected { s with ready := b } hconn] at hp
        exact pinUnsynced_unsyncAll _ _ _ hn p hp hpn
      · rw [if_neg hb] at hne ⊢
        intro n hn hn' p hp hpn
        rw [stop_pinsByName] at hn'
        exact absurd hn' (List.not_mem_nil n)
    · rw [if_neg hr] at hne
      exact absurd hconn hne
  | halrcompMsg t rx =>
    simp only [step] at hstep
    by_cases hsock : s.socketsUp = true
    · rw [if_pos hsock] at hstep
      simp only [halrcompMessageReceived] at hstep
      by_cases h1 : rx.mtype = MsgType.MT_HALRCOMP_INCREMENTAL_UPDATE
      · rw [if_pos h1] at hstep
        cases hrun : runSteps incrementalUpdatePin s rx.pin with
        | none => rw [hrun] at hstep; cases hstep
        | some s1 =>
          rw [hrun] at hstep
          dsimp only at hstep
          have hf := runSteps_incPins_fields hrun
          by_cases hsS : s1.sState ≠ SocketState.Up
          · rw [if_pos hsS] at hstep
            obtain rfl := Option.some.inj hstep
            exact absurd (updateState_connectionState _ _) hne
          · rw [if_neg hsS] at hstep
            obtain rfl := Option.some.inj hstep
            refine absurd ?_ hne
            show s1.connectionState = State.Connected
            rw [hf]
            exact hconn
      · rw [if_neg h1] at hstep
        by_cases h2 : rx.mtype = MsgType.MT_HALRCOMP_FULL_UPDATE
        · rw [if_pos h2] at hstep
          cases hrun : runSteps fullUpdateComp s rx.comp with
          | none => rw [hrun] at hstep; cases hstep
          | some s1 =>
            rw [hrun] at hstep
            dsimp only at hstep
            have hcc := runSteps_fullComps_connected hconn hrun
            cases hpp : rx.pparams with
            | none =>
              rw [hpp] at hstep
              dsimp only at hstep
              obtain rfl := Option.some.inj hstep
              exact absurd hcc hne
            | some pp =>
              rw [hpp] at hstep
              dsimp only at hstep
              obtain rfl := Option.some.inj hstep
              refine absurd ?_ hne
              simp only [startHalrcompHeartbeat]
              split_ifs <;> exact hcc
        · rw [if_neg h2] at hstep
          by_cases h3 : rx.mtype = MsgType.MT_PING
          · rw [if_pos h3] at hstep
            obtain rfl := Option.some.inj hstep
            exact absurd hconn hne
          · rw [if_neg h3] at hstep
            by_cases h4 : rx.mtype = MsgType.MT_HALRCOMMAND_ERROR
            · rw [if_pos h4] at hstep
              obtain rfl := Option.some.inj hstep
              intro n hn _ p hp hpn
              rw [updateState_container_of_connected
                (updateError { s with sState := SocketState.Down }
                  ConnectionError.CommandError (notesString rx.note))
                State.Error hconn (by decide)] at hp
              exact pinUnsynced_unsyncAll _ _ _ hn p hp hpn
            · rw [if_neg h4] at hstep
              obtain rfl := Option.some.inj hstep
              exact absurd hconn hne
    · rw [if_neg hsock] at hstep
      obtain rfl := Option.some.inj hstep
      exact absurd hconn hne
  | halrcmdMsg rx =>
    simp only [step] at hstep
    by_cases hsock : s.socketsUp = true
    · rw [if_pos hsock] at hstep
      obtain rfl := Option.some.inj hstep
      simp only [halrcmdMessageReceived] at hne ⊢
      by_cases h1 : rx.mtype = MsgType.MT_PING_ACKNOWLEDGE
      · rw [if_pos h1] at hne ⊢
        rw [if_neg (by simp [hconn])] at hne
        exact absurd hconn hne
      · rw [if_neg h1] at hne ⊢
        by_cases h2 : rx.mtype = MsgType.MT_HALRCOMP_BIND_CONFIRM
        · rw [if_pos h2] at hne
          exact absurd hconn hne
        · rw [if_neg h2] at hne ⊢
          by_cases h3 : rx.mtype = MsgType.MT_HALRCOMP_BIND_REJECT
              ∨ rx.mtype = MsgType.MT_HALRCOMP_SET_REJECT
          · rw [if_pos h3] at hne ⊢
            by_cases h4 : rx.mtype = MsgType.MT_HALRCOMP_BIND_REJECT
            · rw [if_pos h4] at hne ⊢
              intro n hn _ p hp hpn
              rw [updateState_container_of_connected
                (updateError { s with cState := SocketState.Down }
                  ConnectionError.BindError (notesString rx.note))
                State.Error hconn (by decide)] at hp
              exact pinUnsynced_unsyncAll _ _ _ hn p hp hpn
            · rw [if_neg h4] at hne ⊢
              intro n hn _ p hp hpn
              rw [updateState_container_of_connected
                (updateError { s with cState := SocketState.Down }
                  ConnectionError.PinChangeError (notesString rx.note))
                State.Error hconn (by decide)] at hp
              exact pinUnsynced_unsyncAll _ _ _ hn p hp hpn
          · rw [if_neg h3] at hne
            exact absurd hconn hne
    · rw [if_neg hsock] at hstep
      obtain rfl := Option.some.inj hstep
      exact absurd hconn hne
  | halrcmdTick =>
    simp only [step] at hstep
    by_cases hact : s.halrcmdTimerActive = true
    · rw [if_pos hact] at hstep
      obtain rfl := Option.some.inj hstep
      by_cases hout : s.halrcmdPingOutstanding = true
      · intro n hn _ p hp hpn
        have hcont := halrcmdTick_container_of_connected s hconn hout
        rw [hcont] at hp
        exact pinUnsynced_unsyncAll _ _ _ hn p hp hpn
      · refine absurd ?_ hne
        show (halrcmdHeartbeatTimerTick s).connectionState = State.Connected
        simp only [halrcmdHeartbeatTimerTick, if_neg hout, sendHalrcmdMessage]
        exact hconn
    · rw [if_neg hact] at hstep
      obtain rfl := Option.some.inj hstep
      exact absurd hconn hne
  | halrcompTick =>
    simp only [step] at hstep
    by_cases hact : s.halrcompTimerActive = true
    · rw [if_pos hact] at hstep
      obtain rfl := Option.some.inj hstep
      intro n hn _ p hp hpn
      have hcont := halrcompTick_container_of_connected s hconn
      rw [hcont] at hp
      exact pinUnsynced_unsyncAll _ _ _ hn p hp hpn
    · rw [if_neg hact] at hstep
      obtain rfl := Option.some.inj hstep
      exact absurd hconn hne
  | pinWrite n v =>
    simp only [step] at hstep
    obtain rfl := Option.some.inj hstep
    refine absurd ?_ hne
    rw [localPinWrite_connectionState]
    exact hconn
  | pollErr num msg =>
    simp only [step] at hstep
    by_cases hsock : s.socketsUp = true
    · rw [if_pos hsock] at hstep
      obtain rfl := Option.some.inj hstep
      intro n hn _ p hp hpn
      simp only [pollError] at hp
      rw [updateState_container_of_connected
        (updateError s ConnectionError.SocketError
          ("Error " ++ toString num ++ ": " ++ msg))
        State.Error hconn (by decide)] at hp
      exact pinUnsynced_unsyncAll _ _ _ hn p hp hpn
    · rw [if_neg hsock] at hstep
      obtain rfl := Option.some.inj hstep
      exact absurd hconn hne

/-- Claim C1 is false as stated: the state reached by connecting,
receiving a full update, stopping and starting a new session is
`Connecting` (not `Connected`), yet the re-registered pin `x` still has
`synced = true` — `stop()` cleared the registry before its
`Disconnected` transition, so `unsyncPins` ran over an empty map. -/
theorem c1_counterexample :
    ¬ (∀ s : RC, Reachable rc0 s →
        s.connectionState ≠ State.Connected →
        ∀ n ∈ s.pinsByName, ∀ p ∈ s.container, p.name = n → p.synced = false) := by
  intro hclaim
  have hr : runEvents rc0 traceC1 = some c1State := by decide
  have hs : "x" ∈ c1State.pinsByName ∧ c1State.connectionState = State.Connecting ∧
      ∃ p ∈ c1State.container, p.name = "x" ∧ p.synced = true := by decide
  obtain ⟨hmem, hcs, p, hpc, hpn, hps⟩ := hs
  have := hclaim c1State (runEvents_reachable hr) (by rw [hcs]; decide) "x" hmem p hpc hpn
  rw [this] at hps
  exact Bool.false_ne_true hps

theorem c1_unsync_on_leaving_connected_witness : pinXr.synced = false :=
  c1_unsync_on_leaving_connected cHappy (Event.halrcmdMsg setRejEnv) cRejectState
    (by decide) (by decide) (by decide) "x" (by decide) (by decide) pinXr (by decide) (by decide)

theorem containerGet_mem {c : List HalPin} {n : String} {p : HalPin}
    (h : containerGet c n = some p) : p ∈ c ∧ p.name = n := by
  induction c with
  | nil => cases h
  | cons q rest ih =>
    simp only [containerGet] at h
    by_cases hq : q.name = n
    · rw [if_pos hq] at h
      obtain rfl := Option.some.inj h
      exact ⟨List.mem_cons_self q rest, hq⟩
    · rw [if_neg hq] at h
      obtain ⟨h1, h2⟩ := ih h
      exact ⟨List.mem_cons_of_mem q h1, h2⟩

/-- Claim C2: a local pin write emits an envelope only if the controller
was `Connected` at the time of the write and the written pin's direction
is not `In`; the emitted envelope is a SET. -/
theorem c2_set_requires_connected_not_input (s : RC) (n : String) (v : HalValue)
    (s' : RC) (hstep : step s (Event.pinWrite n v) = some s') :
    s'.sent = s.sent ∨
      (s.connectionState = State.Connected ∧
       ∃ p ∈ s.container, p.name = n ∧ p.direction ≠ HalPinDirection.In ∧
         ∃ env, s'.sent = s.sent ++ [env] ∧ env.mtype = MsgType.MT_HALRCOMP_SET) := by
  simp only [step] at hstep
  obtain rfl := Option.some.inj hstep
  simp only [localPinWrite]
  cases hg : containerGet s.container n with
  | none => left; rfl
  | some q =>
    dsimp only
    by_cases hm : n ∈ s.pinsByName
    · rw [if_pos hm]
      rw [containerGet_containerSet_self s.container n
        (fun p => { p with value := v, synced := false }) (fun p => rfl) q hg]
      dsimp only
      simp only [pinChange]
      by_cases hc : s.connectionState ≠ State.Connected
      · rw [if_pos hc]
        left; rfl
      · rw [if_neg hc]
        by_cases hd : ({ q with value := v, synced := false } : HalPin).direction
            = HalPinDirection.In
        · rw [if_pos hd]
          left; rfl
        · rw [if_neg hd]
          right
          refine ⟨not_not.mp hc, q, (containerGet_mem hg).1, (containerGet_mem hg).2,
            hd, _, rfl, rfl⟩
    · rw [if_neg hm]
      left; rfl

theorem c2_set_requires_connected_not_input_witness :
    (step cHappy (Event.pinWrite "x" (HalValue.hfloat 2))).map RC.sent ≠ some cHappy.sent :=
  have h := c2_set_requires_connected_not_input cHappy "x" (HalValue.hfloat 2)
    ((step cHappy (Event.pinWrite "x" (HalValue.hfloat 2))).getD rc0) (by decide)
  by
    rcases h with h | ⟨_, _, _, _, _, env, henv, _⟩
    · exact absurd h (by decide)
    · intro hcon
      have : (step cHappy (Event.pinWrite "x" (HalValue.hfloat 2))).map RC.sent
          = some (cHappy.sent ++ [env]) := by
        rw [show step cHappy (Event.pinWrite "x" (HalValue.hfloat 2))
            = some ((step cHappy (Event.pinWrite "x" (HalValue.hfloat 2))).getD rc0)
          from by decide]
        simp [henv]
      rw [this] at hcon
      simp at hcon

theorem updateState_errorString (s : RC) (st : State) :
    (updateState s st).errorString = s.errorString := by
  simp only [updateState, startHalrcmdHeartbeat, stopHalrcmdHeartbeat,
    stopHalrcompHeartbeat, unsyncPins]
  split_ifs <;> simp_all

theorem updateState_outstanding_to_connected (s : RC)
    (h : s.connectionState ≠ State.Connected) :
    (updateState s State.Connected).halrcmdPingOutstanding = false := by
  simp only [updateState, startHalrcmdHeartbeat, stopHalrcmdHeartbeat,
    stopHalrcompHeartbeat, unsyncPins]
  split_ifs <;> simp_all

/-- Claim C5: a PING_ACK on the command socket while in Error(Timeout)
clears the error, re-enters Connected and re-subscribes (sub-state
Trying); in any other state/error combination it clears the
outstanding-ping flag and leaves `connectionState` unchanged. -/
theorem c5_ping_ack_recovery (s : RC) (rx : PbContainer) (s' : RC)
    (hsock : s.socketsUp = true)
    (hty : rx.mtype = MsgType.MT_PING_ACKNOWLEDGE)
    (hstep : step s (Event.halrcmdMsg rx) = some s') :
    (s.connectionState = State.Error ∧ s.error = ConnectionError.TimeoutError →
      s'.connectionState = State.Connected ∧ s'.error = ConnectionError.NoError ∧
      s'.errorString = "" ∧ s'.subscribed = true ∧ s'.sState = SocketState.Trying ∧
      s'.halrcmdPingOutstanding = false) ∧
    (¬ (s.connectionState = State.Error ∧ s.error = ConnectionError.TimeoutError) →
      s'.halrcmdPingOutstanding = false ∧ s'.connectionState = s.connectionState) := by
  simp only [step, if_pos hsock] at hstep
  obtain rfl := Option.some.inj hstep
  simp only [halrcmdMessageReceived, if_pos hty]
  constructor
  · intro hET
    rw [if_pos hET]
    refine ⟨?_, ?_, ?_, rfl, rfl, ?_⟩
    · simp only [subscribe]
      exact updateState_connectionState _ _
    · simp only [subscribe]
      rw [updateState_error]
      rfl
    · simp only [subscribe]
      rw [updateState_errorString]
      rfl
    · simp only [subscribe]
      exact updateState_outstanding_to_connected _ (by
        show s.connectionState ≠ State.Connected
        rw [hET.1]
        decide)
  · intro hET
    rw [if_neg hET]
    exact ⟨rfl, rfl⟩

theorem c5_ping_ack_recovery_witness :
    cPingAckState.connectionState = State.Connected ∧
    cPingAckState.error = ConnectionError.NoError :=
  ⟨((c5_ping_ack_recovery c6State pingAckEnv cPingAckState (by decide) (by decide)
      (by decide)).1 (by decide)).1,
   ((c5_ping_ack_recovery c6State pingAckEnv cPingAckState (by decide) (by decide)
      (by decide)).1 (by decide)).2.1⟩

theorem updateState_timers_off (s : RC) (st : State)
    (h1 : st ≠ s.connectionState) (h2 : st ≠ State.Connected) :
    (updateState s st).halrcmdTimerActive = false ∧
    (updateState s st).halrcompTimerActive = false := by
  simp only [updateState, startHalrcmdHeartbeat, stopHalrcmdHeartbeat,
    stopHalrcompHeartbeat, unsyncPins]
  split_ifs <;> simp_all

theorem step_tick_inactive (s : RC) (h1 : s.halrcmdTimerActive = false) :
    step s Event.halrcmdTick = some s := by
  simp only [step]
  rw [if_neg (by simp [h1])]

theorem step_comp_tick_inactive (s : RC) (h2 : s.halrcompTimerActive = false) :
    step s Event.halrcompTick = some s := by
  simp only [step]
  rw [if_neg (by simp [h2])]

theorem runEvents_ticks_inactive (s : RC) (h1 : s.halrcmdTimerActive = false)
    (h2 : s.halrcompTimerActive = false) (es : List Event)
    (hes : ∀ e ∈ es, e = Event.halrcmdTick ∨ e = Event.halrcompTick) :
    runEvents s es = some s := by
  induction es with
  | nil => rfl
  | cons e rest ih =>
    simp only [runEvents]
    rcases hes e (List.mem_cons_self e rest) with rfl | rfl
    · rw [step_tick_inactive s h1]
      exact ih (fun e he => hes e (List.mem_cons_of_mem _ he))
    · rw [step_comp_tick_inactive s h2]
      exact ih (fun e he => hes e (List.mem_cons_of_mem _ he))

/-- Claim C6, amended: a command-heartbeat tick that finds a ping
outstanding moves the controller from Connected to Error(Timeout) and
sends exactly one PING; because the transition into Error stops both
heartbeat timers, every later tick event is a no-op, so no further PING
is emitted autonomously until a PING_ACK restores Connected.  (The
original claim — that PINGs keep being emitted periodically until a
PING_ACK arrives — is false; see the counterexample.) -/
theorem c6_timeout_emits_single_ping (s s' : RC)
    (hconn : s.connectionState = State.Connected)
    (hact : s.halrcmdTimerActive = true)
    (hout : s.halrcmdPingOutstanding = true)
    (hstep : step s Event.halrcmdTick = some s') :
    s'.connectionState = State.Error ∧
    s'.error = ConnectionError.TimeoutError ∧
    s'.sent = s.sent ++ [pingEnvelope] ∧
    s'.halrcmdTimerActive = false ∧
    s'.halrcompTimerActive = false ∧
    (∀ es : List Event,
      (∀ e ∈ es, e = Event.halrcmdTick ∨ e = Event.halrcompTick) →
      runEvents s' es = some s') := by
  simp only [step, if_pos hact] at hstep
  obtain rfl := Option.some.inj hstep
  simp only [halrcmdHeartbeatTimerTick, if_pos hout, sendHalrcmdMessage]
  have hne : State.Error ≠ (updateError (unsubscribe { s with cState := SocketState.Trying })
      ConnectionError.TimeoutError "Halrcmd service timed out").connectionState := by
    show State.Error ≠ s.connectionState
    rw [hconn]
    decide
  have htimers := updateState_timers_off
    (updateError (unsubscribe { s with cState := SocketState.Trying })
      ConnectionError.TimeoutError "Halrcmd service timed out") State.Error hne (by decide)
  refine ⟨updateState_connectionState _ _, ?_, ?_, htimers.1, htimers.2, ?_⟩
  · rw [updateState_error]
    rfl
  · rw [updateState_sent]
    rfl
  · intro es hes
    apply runEvents_ticks_inactive
    · exact htimers.1
    · exact htimers.2
    · exact hes

theorem c6_timeout_emits_single_ping_witness :
    c6State.error = ConnectionError.TimeoutError ∧
    c6State.sent = c6Pre.sent ++ [pingEnvelope] :=
  ⟨(c6_timeout_emits_single_ping c6Pre c6State (by decide) (by decide) (by decide)
      (by decide)).2.1,
   (c6_timeout_emits_single_ping c6Pre c6State (by decide) (by decide) (by decide)
      (by decide)).2.2.1⟩

/-- Claim C6 is false as stated: the Error(Timeout) state reached by a
command-heartbeat tick with a ping outstanding (command-socket history
BIND, PING, PING) is left unchanged by every autonomous continuation —
any sequence of heartbeat-tick events, of any length, yields the same
state, because the Error transition stopped both timers.  So it is not
the case that from every such timeout state some acknowledgment-free
continuation carries one more PING: exactly one PING (the one inside
the timeout tick itself) is ever emitted. -/
theorem c6_counterexample :
    ¬ (∀ s s' : RC, Reachable rc0 s →
        s.connectionState = State.Connected → s.halrcmdPingOutstanding = true →
        step s Event.halrcmdTick = some s' →
        ∃ es : List Event,
          (∀ e ∈ es, e = Event.halrcmdTick ∨ e = Event.halrcompTick) ∧
          ∃ s2, runEvents s' es = some s2 ∧
            (s2.sent.filter (fun env => env.mtype == MsgType.MT_PING)).length
              > (s'.sent.filter (fun env => env.mtype == MsgType.MT_PING)).length) := by
  intro hcl
  have hr : runEvents rc0 (traceHappy ++ [Event.halrcmdTick]) = some c6Pre := by decide
  obtain ⟨es, hes, s2, hrun2, hgt⟩ := hcl c6Pre c6State (runEvents_reachable hr)
    (by decide) (by decide) (by decide)
  rw [runEvents_ticks_inactive c6State (by decide) (by decide) es hes] at hrun2
  obtain rfl := Option.some.inj hrun2
  exact absurd hgt (lt_irrefl _)

/-- Claim C7: after a second FULL_UPDATE that re-numbers `comp.x` from
handle 10 to handle 20, the handle index still contains the stale entry
for 10 — the code merges instead of replacing, contradicting the spec's
prescription that the index hold exactly the entries of the latest
envelope. -/
theorem c7_handle_index_is_merged :
    runEvents rc0 traceC7 = some c7State ∧
    c7State.pinsByHandle = [(10, "x"), (20, "x")] ∧
    handleLookup c7State.pinsByHandle 10 = some "x" ∧
    handleLookup c7State.pinsByHandle 20 = some "x" := by
  refine ⟨by decide, by decide, by decide, by decide⟩

/-- Claim C8: an INCREMENTAL_UPDATE whose pin carries a handle present in
the handle index is applied (value copied, `synced = true`), but a pin
with an unknown handle makes `pinUpdate` dereference the NULL pointer
returned by the lookup — the model crashes (`none`) instead of ignoring
the pin as the claim requires. -/
theorem c8_unknown_handle_crashes :
    runEvents rc0 traceC8good = some c8Good ∧
    (containerGet c8Good.container "x").map HalPin.value = some (HalValue.hfloat 7) ∧
    (containerGet c8Good.container "x").map HalPin.synced = some true ∧
    c8Good.connectionState = State.Connected ∧
    runEvents rc0 traceC8bad = none := by
  refine ⟨by decide, by decide, by decide, by decide, by decide⟩

theorem updateState_period (s : RC) (st : State) :
    (updateState s st).heartbeatPeriod = s.heartbeatPeriod := by
  simp only [updateState, startHalrcmdHeartbeat, stopHalrcmdHeartbeat,
    stopHalrcompHeartbeat, unsyncPins]
  split_ifs <;> simp_all

theorem updateState_sState (s : RC) (st : State) :
    (updateState s st).sState = s.sState := by
  simp only [updateState, startHalrcmdHeartbeat, stopHalrcmdHeartbeat,
    stopHalrcompHeartbeat, unsyncPins]
  split_ifs <;> simp_all

theorem updateState_cmdTimer_off (s : RC) (st : State)
    (h0 : s.heartbeatPeriod = 0) (ht : s.halrcmdTimerActive = false) :
    (updateState s st).halrcmdTimerActive = false := by
  simp only [updateState, startHalrcmdHeartbeat, stopHalrcmdHeartbeat,
    stopHalrcompHeartbeat, unsyncPins]
  split_ifs <;> simp_all

theorem startHalrcompHeartbeat_cmd (s : RC) (i : Nat) :
    (startHalrcompHeartbeat s i).halrcmdTimerActive = s.halrcmdTimerActive ∧
    (startHalrcompHeartbeat s i).heartbeatPeriod = s.heartbeatPeriod := by
  simp only [startHalrcompHeartbeat]
  split_ifs <;> exact ⟨rfl, rfl⟩

theorem localPinWrite_proj (s : RC) (n : String) (v : HalValue) :
    (localPinWrite s n v).heartbeatPeriod = s.heartbeatPeriod ∧
    (localPinWrite s n v).halrcmdTimerActive = s.halrcmdTimerActive := by
  simp only [localPinWrite]
  cases containerGet s.container n with
  | none => exact ⟨rfl, rfl⟩
  | some q =>
    dsimp only
    split
    · split
      · simp only [pinChange, sendHalrcmdMessage]
        split_ifs <;> exact ⟨rfl, rfl⟩
      · exact ⟨rfl, rfl⟩
    · exact ⟨rfl, rfl⟩

theorem start_zeroInv (s : RC) (h : zeroPeriodInv s) : zeroPeriodInv (start s) := by
  obtain ⟨h0, ht⟩ := h
  constructor
  · simp only [start, bind, sendHalrcmdMessage, addPins, connectSockets]
    rw [updateState_period]
    exact h0
  · simp only [start, bind, sendHalrcmdMessage, addPins, connectSockets]
    exact updateState_cmdTimer_off _ _ h0 ht

theorem stop_zeroInv (s : RC) (h0 : s.heartbeatPeriod = 0) : zeroPeriodInv (stop s) := by
  constructor
  · simp only [stop, updateError]
    rw [updateState_period]
    exact h0
  · simp only [stop, updateError]
    exact updateState_cmdTimer_off _ _ h0 rfl

theorem fullUpdateComp_zeroInv {s s1 : RC} {c : PbComponent}
    (h : zeroPeriodInv s) (hc : fullUpdateComp s c = some s1) : zeroPeriodInv s1 := by
  simp only [fullUpdateComp] at hc
  cases hrun : runSteps fullUpdatePin s c.pin with
  | none => rw [hrun] at hc; cases hc
  | some sa =>
    rw [hrun] at hc
    dsimp only at hc
    have ha := runSteps_fullPins_fields hrun
    have hA : zeroPeriodInv sa := by
      rw [ha]
      exact h
    by_cases hsS : sa.sState ≠ SocketState.Up
    · rw [if_pos hsS] at hc
      obtain rfl := Option.some.inj hc
      exact ⟨by rw [updateState_period]; exact hA.1,
        updateState_cmdTimer_off _ _ hA.1 hA.2⟩
    · rw [if_neg hsS] at hc
      obtain rfl := Option.some.inj hc
      exact hA

theorem runSteps_fullComps_zeroInv {l : List PbComponent} {s s1 : RC}
    (h : zeroPeriodInv s) (hc : runSteps fullUpdateComp s l = some s1) :
    zeroPeriodInv s1 := by
  induction l generalizing s with
  | nil =>
    simp only [runSteps] at hc
    cases hc
    exact h
  | cons c rest ih =>
    simp only [runSteps] at hc
    cases hstep : fullUpdateComp s c with
    | none => rw [hstep] at hc; cases hc
    | some sa =>
      rw [hstep] at hc
      exact ih (fullUpdateComp_zeroInv h hstep) hc

theorem zeroPeriodInv_step {s s' : RC} {e : Event} (h : zeroPeriodInv s)
    (hs : step s e = some s') : zeroPeriodInv s' := by
  cases e with
  | setReadyEv b =>
    simp only [step] at hs
    obtain rfl := Option.some.inj hs
    simp only [setReady]
    split_ifs with h1 h2
    · exact start_zeroInv _ ⟨h.1, h.2⟩
    · exact stop_zeroInv _ h.1
    · exact h
  | halrcompMsg t rx =>
    simp only [step] at hs
    by_cases hsock : s.socketsUp = true
    · rw [if_pos hsock] at hs
      simp only [halrcompMessageReceived] at hs
      by_cases h1 : rx.mtype = MsgType.MT_HALRCOMP_INCREMENTAL_UPDATE
      · rw [if_pos h1] at hs
        cases hrun : runSteps incrementalUpdatePin s rx.pin with
        | none => rw [hrun] at hs; cases hs
        | some s1 =>
          rw [hrun] at hs
          dsimp only at hs
          have hA : zeroPeriodInv s1 := by
            rw [runSteps_incPins_fields hrun]
            exact h
          by_cases hsS : s1.sState ≠ SocketState.Up
          · rw [if_pos hsS] at hs
            obtain rfl := Option.some.inj hs
            simp only [refreshHalrcompHeartbeat]
            exact ⟨by rw [updateState_period]; exact hA.1,
              updateState_cmdTimer_off _ _ hA.1 hA.2⟩
          · rw [if_neg hsS] at hs
            obtain rfl := Option.some.inj hs
            exact hA
      · rw [if_neg h1] at hs
        by_cases h2 : rx.mtype = MsgType.MT_HALRCOMP_FULL_UPDATE
        · rw [if_pos h2] at hs
          cases hrun : runSteps fullUpdateComp s rx.comp with
          | none => rw [hrun] at hs; cases hs
          | some s1 =>
            rw [hrun] at hs
            dsimp only at hs
            have hA := runSteps_fullComps_zeroInv h hrun
            cases hpp : rx.pparams with
            | none =>
              rw [hpp] at hs
              dsimp only at hs
              obtain rfl := Option.some.inj hs
              exact hA
            | some pp =>
              rw [hpp] at hs
              dsimp only at hs
              obtain rfl := Option.some.inj hs
              exact ⟨(startHalrcompHeartbeat_cmd s1 _).2.trans hA.1,
                (startHalrcompHeartbeat_cmd s1 _).1.trans hA.2⟩
        · rw [if_neg h2] at hs
          by_cases h3 : rx.mtype = MsgType.MT_PING
          · rw [if_pos h3] at hs
            obtain rfl := Option.some.inj hs
            exact h
          · rw [if_neg h3] at hs
            by_cases h4 : rx.mtype = MsgType.MT_HALRCOMMAND_ERROR
            · rw [if_pos h4] at hs
              obtain rfl := Option.some.inj hs
              exact ⟨by rw [updateState_period]; exact h.1,
                updateState_cmdTimer_off _ _ h.1 h.2⟩
            · rw [if_neg h4] at hs
              obtain rfl := Option.some.inj hs
              exact h
    · rw [if_neg hsock] at hs
      obtain rfl := Option.some.inj hs
      exact h
  | halrcmdMsg rx =>
    simp only [step] at hs
    by_cases hsock : s.socketsUp = true
    · rw [if_pos hsock] at hs
      obtain rfl := Option.some.inj hs
      simp only [halrcmdMessageReceived]
      split_ifs with h1 h2 h3 h4 <;>
        first
        | exact h
        | exact ⟨by simp only [subscribe]; rw [updateState_period]; exact h.1,
            by simp only [subscribe]; exact updateState_cmdTimer_off _ _ h.1 h.2⟩
        | exact ⟨by rw [updateState_period]; exact h.1,
            updateState_cmdTimer_off _ _ h.1 h.2⟩
    · rw [if_neg hsock] at hs
      obtain rfl := Option.some.inj hs
      exact h
  | halrcmdTick =>
    simp only [step] at hs
    rw [if_neg (by simp [h.2])] at hs
    obtain rfl := Option.some.inj hs
    exact h
  | halrcompTick =>
    simp only [step] at hs
    by_cases hact : s.halrcompTimerActive = true
    · rw [if_pos hact] at hs
      obtain rfl := Option.some.inj hs
      simp only [halrcompHeartbeatTimerTick, sendHalrcmdMessage]
      exact ⟨by rw [updateState_period]; exact h.1,
        updateState_cmdTimer_off _ _ h.1 h.2⟩
    · rw [if_neg hact] at hs
      obtain rfl := Option.some.inj hs
      exact h
  | pinWrite n v =>
    simp only [step] at hs
    obtain rfl := Option.some.inj hs
    exact ⟨(localPinWrite_proj s n v).1.trans h.1, (localPinWrite_proj s n v).2.trans h.2⟩
  | pollErr num msg =>
    simp only [step] at hs
    by_cases hsock : s.socketsUp = true
    · rw [if_pos hsock] at hs
      obtain rfl := Option.some.inj hs
      simp only [pollError]
      exact ⟨by rw [updateState_period]; exact h.1,
        updateState_cmdTimer_off _ _ h.1 h.2⟩
    · rw [if_neg hsock] at hs
      obtain rfl := Option.some.inj hs
      exact h

theorem zeroPeriodInv_reachable {s0 s : RC} (h0 : zeroPeriodInv s0)
    (h : Reachable s0 s) : zeroPeriodInv s := by
  induction h with
  | refl => exact h0
  | tail e _ hs ih => exact zeroPeriodInv_step ih hs

/-- Claim C9: in any state reachable from an initial state configured
with heartbeat_period = 0, the command heartbeat timer is stopped (so a
command-heartbeat tick cannot fire — it is a no-op — and no PING is
ever emitted autonomously on that channel); yet whenever the
subscription heartbeat timer is running, its timeout tick still sends a
recovery PING on the command socket. -/
theorem c9_zero_period_heartbeat (name : String) (container : List HalPin) (s : RC)
    (hreach : Reachable (initRC name 0 container) s) :
    s.halrcmdTimerActive = false ∧
    step s Event.halrcmdTick = some s ∧
    (s.halrcompTimerActive = true →
      ∃ s', step s Event.halrcompTick = some s' ∧
        s'.sent = s.sent ++ [pingEnvelope] ∧
        s'.connectionState = State.Error ∧
        s'.error = ConnectionError.TimeoutError) := by
  have hinv := zeroPeriodInv_reachable ⟨rfl, rfl⟩ hreach
  refine ⟨hinv.2, step_tick_inactive s hinv.2, ?_⟩
  intro hact
  refine ⟨halrcompHeartbeatTimerTick s, ?_, ?_, ?_, ?_⟩
  · simp only [step]
    rw [if_pos (by simp [hact])]
  · simp only [halrcompHeartbeatTimerTick, sendHalrcmdMessage]
    rw [updateState_sent]
    rfl
  · simp only [halrcompHeartbeatTimerTick, sendHalrcmdMessage]
    exact updateState_connectionState _ _
  · simp only [halrcompHeartbeatTimerTick, sendHalrcmdMessage]
    rw [updateState_error]
    rfl

theorem c9_zero_period_heartbeat_witness :
    c9State.halrcmdTimerActive = false ∧
    step c9State Event.halrcmdTick = some c9State ∧
    c9State.halrcompTimerActive = true :=
  ⟨(c9_zero_period_heartbeat "comp" [pinX] c9State (runEvents_reachable
      (show runEvents (initRC "comp" 0 [pinX])
          [Event.setReadyEv true, Event.halrcompMsg "comp" fullUpdKeep] = some c9State
        by decide))).1,
   (c9_zero_period_heartbeat "comp" [pinX] c9State (runEvents_reachable
      (show runEvents (initRC "comp" 0 [pinX])
          [Event.setReadyEv true, Event.halrcompMsg "comp" fullUpdKeep] = some c9State
        by decide))).2.1,
   by decide⟩

/-- Claim C10: an INCREMENTAL_UPDATE processed while the subscription
sub-state is not Up clears the error and enters Connected; concretely,
an empty incremental update received right after session start yields
Connected with an empty handle index and the pin's handle still 0 — no
FULL_UPDATE was ever processed. -/
theorem c10_incremental_enters_connected :
    (∀ (s : RC) (t : String) (rx : PbContainer) (s' : RC),
      s.socketsUp = true →
      rx.mtype = MsgType.MT_HALRCOMP_INCREMENTAL_UPDATE →
      s.sState ≠ SocketState.Up →
      step s (Event.halrcompMsg t rx) = some s' →
      s'.connectionState = State.Connected ∧ s'.error = ConnectionError.NoError ∧
        s'.errorString = "" ∧ s'.sState = SocketState.Up) ∧
    (step c10Pre (Event.halrcompMsg "comp" incEmpty) = some c10State ∧
     c10State.connectionState = State.Connected ∧
     c10State.error = ConnectionError.NoError ∧
     c10State.pinsByHandle = [] ∧
     (containerGet c10State.container "x").map HalPin.handle = some 0) := by
  constructor
  · intro s t rx s' hsock hty hsS hstep
    simp only [step, if_pos hsock] at hstep
    simp only [halrcompMessageReceived, if_pos hty] at hstep
    cases hrun : runSteps incrementalUpdatePin s rx.pin with
    | none => rw [hrun] at hstep; cases hstep
    | some s1 =>
      rw [hrun] at hstep
      dsimp only at hstep
      have hf := runSteps_incPins_fields hrun
      have hs1 : s1.sState ≠ SocketState.Up := by
        rw [hf]
        exact hsS
      rw [if_pos hs1] at hstep
      obtain rfl := Option.some.inj hstep
      refine ⟨updateState_connectionState _ _, ?_, ?_, ?_⟩
      · rw [show (refreshHalrcompHeartbeat (updateState _ State.Connected)).error
            = (updateState _ State.Connected).error from rfl, updateState_error]
        rfl
      · rw [show (refreshHalrcompHeartbeat (updateState _ State.Connected)).errorString
            = (updateState _ State.Connected).errorString from rfl, updateState_errorString]
        rfl
      · rw [show (refreshHalrcompHeartbeat (updateState _ State.Connected)).sState
            = (updateState _ State.Connected).sState from rfl, updateState_sState]
        rfl
  · exact ⟨by decide, by decide, by decide, by decide, by decide⟩

theorem c10_incremental_enters_connected_witness :
    c10State.connectionState = State.Connected ∧
    c10State.error = ConnectionError.NoError :=
  ⟨(c10_incremental_enters_connected.1 c10Pre "comp" incEmpty c10State
      (by decide) (by decide) (by decide) (by decide)).1,
   (c10_incremental_enters_connected.1 c10Pre "comp" incEmpty c10State
      (by decide) (by decide) (by decide) (by decide)).2.1⟩

theorem updateState_container_to_connected (s : RC) :
    (updateState s State.Connected).container = s.container := by
  simp only [updateState, startHalrcmdHeartbeat, stopHalrcmdHeartbeat,
    stopHalrcompHeartbeat, unsyncPins]
  split_ifs <;> simp_all

theorem startHalrcompHeartbeat_proj (s : RC) (i : Nat) :
    (startHalrcompHeartbeat s i).container = s.container ∧
    (startHalrcompHeartbeat s i).pinsByHandle = s.pinsByHandle := by
  simp only [startHalrcompHeartbeat]
  split_ifs <;> exact ⟨rfl, rfl⟩

theorem containerGet_containerSet_isSome (c : List HalPin) (m n : String)
    (f : HalPin → HalPin) (hf : ∀ p, (f p).name = p.name) :
    (containerGet (containerSet c m f) n).isSome = (containerGet c n).isSome := by
  induction c with
  | nil => rfl
  | cons p rest ih =>
    simp only [containerSet, containerGet]
    by_cases hpm : p.name = m
    · rw [if_pos hpm]
      by_cases hpn : p.name = n
      · rw [if_pos (by rw [hf p]; exact hpn), if_pos hpn]
        rfl
      · rw [if_neg (by rw [hf p]; exact hpn), if_neg hpn]
        exact ih
    · rw [if_neg hpm]
      by_cases hpn : p.name = n
      · rw [if_pos hpn, if_pos hpn]
      · rw [if_neg hpn, if_neg hpn]
        exact ih

theorem fullUpdatePin_get_isSome {sx sy : RC} {rp : PbPin} (n : String)
    (hstep : fullUpdatePin sx rp = some sy) :
    (containerGet sy.container n).isSome = (containerGet sx.container n).isSome := by
  simp only [fullUpdatePin, registryLookup] at hstep
  by_cases hm : stripLocalName (rp.name.getD "") ∈ sx.pinsByName
  · rw [if_pos hm] at hstep
    dsimp only at hstep
    simp only [pinUpdate, setPinValueFromRemote] at hstep
    cases hv : pbPinValue rp with
    | none =>
      rw [hv] at hstep
      obtain rfl := Option.some.inj hstep
      exact containerGet_containerSet_isSome _ _ _
        (fun p => { p with handle := rp.handle.getD 0 }) (fun p => rfl)
    | some v =>
      rw [hv] at hstep
      obtain rfl := Option.some.inj hstep
      show (containerGet (containerSet (containerSet sx.container
          (stripLocalName (rp.name.getD "")) (fun p => { p with handle := rp.handle.getD 0 }))
          (stripLocalName (rp.name.getD "")) (fun p => { p with value := v, synced := true }))
          n).isSome = (containerGet sx.container n).isSome
      rw [containerGet_containerSet_isSome _ _ _
            (fun p => { p with value := v, synced := true }) (fun p => rfl),
          containerGet_containerSet_isSome _ _ _
            (fun p => { p with handle := rp.handle.getD 0 }) (fun p => rfl)]
  · rw [if_neg hm] at hstep
    cases hstep

theorem runSteps_fullPins_get_isSome {l : List PbPin} {sx sy : RC} (n : String)
    (hstep : runSteps fullUpdatePin sx l = some sy) :
    (containerGet sy.container n).isSome = (containerGet sx.container n).isSome := by
  induction l generalizing sx with
  | nil =>
    simp only [runSteps] at hstep
    cases hstep
    rfl
  | cons rp rest ih =>
    simp only [runSteps] at hstep
    cases h1 : fullUpdatePin sx rp with
    | none => rw [h1] at hstep; cases hstep
    | some sz =>
      rw [h1] at hstep
      exact (ih hstep).trans (fullUpdatePin_get_isSome n h1)

theorem fullUpdateComp_get_isSome {sx sy : RC} {cmp' : PbComponent} (n : String)
    (hstep : fullUpdateComp sx cmp' = some sy) :
    (containerGet sy.container n).isSome = (containerGet sx.container n).isSome := by
  simp only [fullUpdateComp] at hstep
  cases hrun : runSteps fullUpdatePin sx cmp'.pin with
  | none => rw [hrun] at hstep; cases hstep
  | some sc =>
    rw [hrun] at hstep
    dsimp only at hstep
    have hp := runSteps_fullPins_get_isSome n hrun
    by_cases hsS : sc.sState ≠ SocketState.Up
    · rw [if_pos hsS] at hstep
      obtain rfl := Option.some.inj hstep
      rw [updateState_container_to_connected]
      exact hp
    · rw [if_neg hsS] at hstep
      obtain rfl := Option.some.inj hstep
      exact hp

theorem runSteps_fullComps_get_isSome {l : List PbComponent} {sx sy : RC} (n : String)
    (hstep : runSteps fullUpdateComp sx l = some sy) :
    (containerGet sy.container n).isSome = (containerGet sx.container n).isSome := by
  induction l generalizing sx with
  | nil =>
    simp only [runSteps] at hstep
    cases hstep
    rfl
  | cons cmp' rest ih =>
    simp only [runSteps] at hstep
    cases h1 : fullUpdateComp sx cmp' with
    | none => rw [h1] at hstep; cases hstep
    | some sz =>
      rw [h1] at hstep
      exact (ih hstep).trans (fullUpdateComp_get_isSome n h1)

theorem fullUpdatePin_skip {sx sy : RC} {rp' : PbPin} {pn : String} {hdl : Nat}
    (hstep : fullUpdatePin sx rp' = some sy)
    (hn : stripLocalName (rp'.name.getD "") ≠ pn)
    (hh : rp'.handle.getD 0 ≠ hdl) :
    containerGet sy.container pn = containerGet sx.container pn ∧
    handleLookup sy.pinsByHandle hdl = handleLookup sx.pinsByHandle hdl := by
  simp only [fullUpdatePin, registryLookup] at hstep
  by_cases hm : stripLocalName (rp'.name.getD "") ∈ sx.pinsByName
  · rw [if_pos hm] at hstep
    dsimp only at hstep
    simp only [pinUpdate, setPinValueFromRemote] at hstep
    cases hv : pbPinValue rp' with
    | none =>
      rw [hv] at hstep
      obtain rfl := Option.some.inj hstep
      exact ⟨containerGet_containerSet_ne _ _ _
               (fun p => { p with handle := rp'.handle.getD 0 }) (fun p => rfl) hn,
             handleLookup_handleInsert_ne _ _ _ _ hh⟩
    | some v =>
      rw [hv] at hstep
      obtain rfl := Option.some.inj hstep
      constructor
      · show (containerGet (containerSet (containerSet sx.container
            (stripLocalName (rp'.name.getD ""))
            (fun p => { p with handle := rp'.handle.getD 0 }))
            (stripLocalName (rp'.name.getD ""))
            (fun p => { p with value := v, synced := true }))
            pn) = containerGet sx.container pn
        rw [containerGet_containerSet_ne _ _ _
              (fun p => { p with value := v, synced := true }) (fun p => rfl) hn,
            containerGet_containerSet_ne _ _ _
              (fun p => { p with handle := rp'.handle.getD 0 }) (fun p => rfl) hn]
      · exact handleLookup_handleInsert_ne _ _ _ _ hh
  · rw [if_neg hm] at hstep
    cases hstep

theorem runSteps_fullPins_skip {l : List PbPin} {sx sy : RC} {pn : String} {hdl : Nat}
    (hstep : runSteps fullUpdatePin sx l = some sy)
    (hl : ∀ rp' ∈ l, stripLocalName (rp'.name.getD "") ≠ pn ∧ rp'.handle.getD 0 ≠ hdl) :
    containerGet sy.container pn = containerGet sx.container pn ∧
    handleLookup sy.pinsByHandle hdl = handleLookup sx.pinsByHandle hdl := by
  induction l generalizing sx with
  | nil =>
    simp only [runSteps] at hstep
    cases hstep
    exact ⟨rfl, rfl⟩
  | cons rp' rest ih =>
    simp only [runSteps] at hstep
    cases h1 : fullUpdatePin sx rp' with
    | none => rw [h1] at hstep; cases hstep
    | some sz =>
      rw [h1] at hstep
      have hskip := fullUpdatePin_skip h1 (hl rp' (List.mem_cons_self _ _)).1
        (hl rp' (List.mem_cons_self _ _)).2
      have hrest := ih hstep (fun q hq => hl q (List.mem_cons_of_mem _ hq))
      exact ⟨hrest.1.trans hskip.1, hrest.2.trans hskip.2⟩

theorem fullUpdateComp_skip {sx sy : RC} {cmp' : PbComponent} {pn : String} {hdl : Nat}
    (hstep : fullUpdateComp sx cmp' = some sy)
    (hl : ∀ rp' ∈ cmp'.pin, stripLocalName (rp'.name.getD "") ≠ pn ∧ rp'.handle.getD 0 ≠ hdl) :
    containerGet sy.container pn = containerGet sx.container pn ∧
    handleLookup sy.pinsByHandle hdl = handleLookup sx.pinsByHandle hdl := by
  simp only [fullUpdateComp] at hstep
  cases hrun : runSteps fullUpdatePin sx cmp'.pin with
  | none => rw [hrun] at hstep; cases hstep
  | some sc =>
    rw [hrun] at hstep
    dsimp only at hstep
    have hp := runSteps_fullPins_skip hrun hl
    by_cases hsS : sc.sState ≠ SocketState.Up
    · rw [if_pos hsS] at hstep
      obtain rfl := Option.some.inj hstep
      constructor
      · rw [updateState_container_to_connected]
        exact hp.1
      · rw [updateState_pinsByHandle]
        exact hp.2
    · rw [if_neg hsS] at hstep
      obtain rfl := Option.some.inj hstep
      exact hp

theorem runSteps_fullComps_skip {l : List PbComponent} {sx sy : RC} {pn : String} {hdl : Nat}
    (hstep : runSteps fullUpdateComp sx l = some sy)
    (hl : ∀ cmp' ∈ l, ∀ rp' ∈ cmp'.pin,
      stripLocalName (rp'.name.getD "") ≠ pn ∧ rp'.handle.getD 0 ≠ hdl) :
    containerGet sy.container pn = containerGet sx.container pn ∧
    handleLookup sy.pinsByHandle hdl = handleLookup sx.pinsByHandle hdl := by
  induction l generalizing sx with
  | nil =>
    simp only [runSteps] at hstep
    cases hstep
    exact ⟨rfl, rfl⟩
  | cons cmp' rest ih =>
    simp only [runSteps] at hstep
    cases h1 : fullUpdateComp sx cmp' with
    | none => rw [h1] at hstep; cases hstep
    | some sz =>
      rw [h1] at hstep
      have hskip := fullUpdateComp_skip h1 (hl cmp' (List.mem_cons_self _ _))
      have hrest := ih hstep (fun q hq => hl q (List.mem_cons_of_mem _ hq))
      exact ⟨hrest.1.trans hskip.1, hrest.2.trans hskip.2⟩

theorem fullUpdatePin_hit {sx sy : RC} {rp : PbPin} {pn : String} {v : HalValue}
    (hstep : fullUpdatePin sx rp = some sy)
    (hname : stripLocalName (rp.name.getD "") = pn)
    (hval : pbPinValue rp = some v)
    (hpres : (containerGet sx.container pn).isSome = true) :
    (∃ p0, containerGet sx.container pn = some p0 ∧
      containerGet sy.container pn
        = some { p0 with handle := rp.handle.getD 0, value := v, synced := true }) ∧
    handleLookup sy.pinsByHandle (rp.handle.getD 0) = some pn := by
  rw [show fullUpdatePin sx rp
      = (match registryLookup sx pn with
         | none => none
         | some pinName =>
           pinUpdate rp (some pinName)
             { sx with
               container := (containerSet sx.container pinName
                 (fun p => { p with handle := rp.handle.getD 0 })),
               pinsByHandle := handleInsert (rp.handle.getD 0) pinName sx.pinsByHandle })
    from by rw [fullUpdatePin, hname]] at hstep
  simp only [registryLookup] at hstep
  by_cases hm : pn ∈ sx.pinsByName
  · rw [if_pos hm] at hstep
    dsimp only at hstep
    simp only [pinUpdate, setPinValueFromRemote, hval] at hstep
    obtain rfl := Option.some.inj hstep
    obtain ⟨p0, hp0⟩ := Option.isSome_iff_exists.mp hpres
    refine ⟨⟨p0, hp0, ?_⟩, handleLookup_handleInsert_self _ _ _⟩
    have h1 := containerGet_containerSet_self sx.container pn
      (fun p => { p with handle := rp.handle.getD 0 }) (fun p => rfl) p0 hp0
    have h2 := containerGet_containerSet_self _ pn
      (fun p => { p with value := v, synced := true }) (fun p => rfl) _ h1
    exact h2
  · rw [if_neg hm] at hstep
    cases hstep

/-- Claim C3: processing a FULL_UPDATE that carries a pin sub-message
named `<comp>.<p>` with value `v`, where `p` is registered in the name
index (and, as for every registered pin, exists in the container), and
no later sub-message of the same envelope targets the same local pin or
the same handle, leaves the local pin `p` with value `v`,
`synced = true` and the handle of the sub-message, and makes the handle
index map that handle back to `p`. -/
theorem c3_full_update_round_trip
    (s s' : RC) (t : String) (env : PbContainer)
    (comps1 comps2 : List PbComponent) (cmp : PbComponent)
    (pins1 pins2 : List PbPin) (rp : PbPin) (pn : String) (v : HalValue)
    (hsock : s.socketsUp = true)
    (hty : env.mtype = MsgType.MT_HALRCOMP_FULL_UPDATE)
    (hcomp : env.comp = comps1 ++ cmp :: comps2)
    (hpin : cmp.pin = pins1 ++ rp :: pins2)
    (hname : stripLocalName (rp.name.getD "") = pn)
    (hval : pbPinValue rp = some v)
    (_hreg : pn ∈ s.pinsByName)
    (hpres : (containerGet s.container pn).isSome = true)
    (hlater1 : ∀ rp' ∈ pins2,
      stripLocalName (rp'.name.getD "") ≠ pn ∧ rp'.handle.getD 0 ≠ rp.handle.getD 0)
    (hlater2 : ∀ cmp' ∈ comps2, ∀ rp' ∈ cmp'.pin,
      stripLocalName (rp'.name.getD "") ≠ pn ∧ rp'.handle.getD 0 ≠ rp.handle.getD 0)
    (hstep : step s (Event.halrcompMsg t env) = some s') :
    (∃ p, containerGet s'.container pn = some p ∧
      p.value = v ∧ p.synced = true ∧ p.handle = rp.handle.getD 0) ∧
    handleLookup s'.pinsByHandle (rp.handle.getD 0) = some pn := by
  clear _hreg
  simp only [step, if_pos hsock] at hstep
  simp only [halrcompMessageReceived] at hstep
  rw [if_neg (by rw [hty]; decide), if_pos hty] at hstep
  cases hrun : runSteps fullUpdateComp s env.comp with
  | none => rw [hrun] at hstep; cases hstep
  | some s1 =>
    rw [hrun] at hstep
    dsimp only at hstep
    rw [hcomp, runSteps_append] at hrun
    cases hruna : runSteps fullUpdateComp s comps1 with
    | none => rw [hruna] at hrun; cases hrun
    | some sa =>
      rw [hruna] at hrun
      dsimp only at hrun
      simp only [runSteps] at hrun
      cases hcmp' : fullUpdateComp sa cmp with
      | none => rw [hcmp'] at hrun; cases hrun
      | some sb =>
        rw [hcmp'] at hrun
        dsimp only at hrun
        simp only [fullUpdateComp] at hcmp'
        rw [hpin, runSteps_append] at hcmp'
        cases hpins1 : runSteps fullUpdatePin sa pins1 with
        | none => rw [hpins1] at hcmp'; cases hcmp'
        | some sx =>
          rw [hpins1] at hcmp'
          dsimp only at hcmp'
          simp only [runSteps] at hcmp'
          cases hhit : fullUpdatePin sx rp with
          | none => rw [hhit] at hcmp'; cases hcmp'
          | some sy =>
            rw [hhit] at hcmp'
            dsimp only at hcmp'
            cases hpins2 : runSteps fullUpdatePin sy pins2 with
            | none => rw [hpins2] at hcmp'; cases hcmp'
            | some sc =>
              rw [hpins2] at hcmp'
              dsimp only at hcmp'
              have hpresx : (containerGet sx.container pn).isSome = true := by
                rw [runSteps_fullPins_get_isSome pn hpins1,
                    runSteps_fullComps_get_isSome pn hruna]
                exact hpres
              obtain ⟨⟨p0, hp0, hpy⟩, hhy⟩ := fullUpdatePin_hit hhit hname hval hpresx
              have hpc := runSteps_fullPins_skip hpins2 hlater1
              have hsb : containerGet sb.container pn = containerGet sc.container pn ∧
                  handleLookup sb.pinsByHandle (rp.handle.getD 0)
                    = handleLookup sc.pinsByHandle (rp.handle.getD 0) := by
                by_cases hsS : sc.sState ≠ SocketState.Up
                · rw [if_pos hsS] at hcmp'
                  obtain rfl := Option.some.inj hcmp'
                  constructor
                  · rw [updateState_container_to_connected]
                    rfl
                  · rw [updateState_pinsByHandle]
                    rfl
                · rw [if_neg hsS] at hcmp'
                  obtain rfl := Option.some.inj hcmp'
                  exact ⟨rfl, rfl⟩
              have hc2 := runSteps_fullComps_skip hrun hlater2
              have hfin : s'.container = s1.container ∧ s'.pinsByHandle = s1.pinsByHandle := by
                cases hpp : env.pparams with
                | none =>
                  rw [hpp] at hstep
                  dsimp only at hstep
                  obtain rfl := Option.some.inj hstep
                  exact ⟨rfl, rfl⟩
                | some pp =>
                  rw [hpp] at hstep
                  dsimp only at hstep
                  obtain rfl := Option.some.inj hstep
                  exact ⟨(startHalrcompHeartbeat_proj s1 _).1,
                         (startHalrcompHeartbeat_proj s1 _).2⟩
              refine ⟨⟨{ p0 with handle := rp.handle.getD 0, value := v, synced := true },
                ?_, rfl, rfl, rfl⟩, ?_⟩
              · rw [hfin.1, hc2.1, hsb.1, hpc.1, hpy]
              · rw [hfin.2, hc2.2, hsb.2, hpc.2, hhy]

theorem c3_full_update_round_trip_witness :
    (containerGet cHappy.container "x").map HalPin.value = some (HalValue.hfloat 1) ∧
    (containerGet cHappy.container "x").map HalPin.synced = some true ∧
    (containerGet cHappy.container "x").map HalPin.handle = some 10 ∧
    handleLookup cHappy.pinsByHandle 10 = some "x" := by
  obtain ⟨⟨p, hp, hv, hs, hh⟩, hl⟩ := c3_full_update_round_trip c10Pre cHappy "comp" fullUpd1
    [] [] ⟨some "comp", [⟨some "comp.x", some 10, none, none, some 1, none, none, none⟩]⟩
    [] [] ⟨some "comp.x", some 10, none, none, some 1, none, none, none⟩ "x" (HalValue.hfloat 1)
    (by decide) (by decide) (by decide) (by decide) (by decide) (by decide) (by decide)
    (by decide) (by decide) (by decide) (by decide)
  refine ⟨?_, ?_, ?_, hl⟩
  · rw [hp]
    simp [hv]
  · rw [hp]
    simp [hs]
  · rw [hp]
    simp [hh]

theorem mem_mapInsert (a n : String) (l : List String) :
    a ∈ mapInsert n l ↔ a = n ∨ a ∈ l := by
  induction l with
  | nil => simp [mapInsert]
  | cons m rest ih =>
    simp only [mapInsert]
    split_ifs with h1 h2
    · subst h1
      constructor
      · intro h
        rcases List.mem_cons.mp h with rfl | h
        · exact Or.inl rfl
        · exact Or.inr (List.mem_cons_of_mem _ h)
      · intro h
        rcases h with rfl | h
        · exact List.mem_cons_self _ _
        · exact h
    · simp [List.mem_cons]
    · simp only [List.mem_cons, ih]
      tauto

/-- Membership in the registry built by the `addPins` loop. -/
theorem addPins_fold_mem (l : List HalPin) (reg : List String) (a : String) :
    (a ∈ l.foldl (fun reg p =>
        if p.name = "" ∨ p.enabled = false then reg else mapInsert p.name reg) reg)
      ↔ a ∈ reg ∨ ∃ p ∈ l, p.name = a ∧ ¬ (p.name = "" ∨ p.enabled = false) := by
  induction l generalizing reg with
  | nil => simp
  | cons q rest ih =>
    simp only [List.foldl_cons]
    by_cases hq : q.name = "" ∨ q.enabled = false
    · rw [if_pos hq]
      rw [ih]
      constructor
      · intro h
        rcases h with h | ⟨p, hp, hpa, hok⟩
        · exact Or.inl h
        · exact Or.inr ⟨p, List.mem_cons_of_mem _ hp, hpa, hok⟩
      · intro h
        rcases h with h | ⟨p, hp, hpa, hok⟩
        · exact Or.inl h
        · rcases List.mem_cons.mp hp with rfl | hp'
          · exact absurd hq hok
          · exact Or.inr ⟨p, hp', hpa, hok⟩
    · rw [if_neg hq]
      rw [ih]
      constructor
      · intro h
        rcases h with h | ⟨p, hp, hpa, hok⟩
        · rcases (mem_mapInsert a q.name reg).mp h with rfl | h'
          · exact Or.inr ⟨q, List.mem_cons_self _ _, rfl, hq⟩
          · exact Or.inl h'
        · exact Or.inr ⟨p, List.mem_cons_of_mem _ hp, hpa, hok⟩
      · intro h
        rcases h with h | ⟨p, hp, hpa, hok⟩
        · exact Or.inl ((mem_mapInsert a q.name reg).mpr (Or.inr h))
        · rcases List.mem_cons.mp hp with rfl | hp'
          · exact Or.inl ((mem_mapInsert a p.name reg).mpr (Or.inl hpa.symm))
          · exact Or.inr ⟨p, hp', hpa, hok⟩

theorem containerGet_of_mem_nodup {c : List HalPin}
    (hnd : (c.map HalPin.name).Nodup) {p : HalPin} (hp : p ∈ c) :
    containerGet c p.name = some p := by
  induction c with
  | nil => cases hp
  | cons q rest ih =>
    rcases List.mem_cons.mp hp with rfl | hp'
    · simp [containerGet]
    · have hq : q.name ≠ p.name := by
        intro he
        exact (List.nodup_cons.mp hnd).1 (he ▸ List.mem_map_of_mem HalPin.name hp')
      simp only [containerGet, if_neg hq]
      exact ih (List.nodup_cons.mp hnd).2 hp'

theorem filterMap_length_of_all_some {α β : Type} (f : α → Option β) (l : List α)
    (h : ∀ a ∈ l, (f a).isSome = true) : (l.filterMap f).length = l.length := by
  induction l with
  | nil => rfl
  | cons a rest ih =>
    have ha := h a (List.mem_cons_self _ _)
    obtain ⟨b, hb⟩ := Option.isSome_iff_exists.mp ha
    rw [List.filterMap_cons, hb]
    simp only [List.length_cons]
    rw [ih (fun a ha => h a (List.mem_cons_of_mem _ ha))]

/-- Claim C4: the session-start BIND envelope holds exactly one component
sub-message carrying the component name, and one pin sub-message per
registered pin — those container pins that are enabled and named — each
built by `bindPinMsg`: fully-qualified name, type tag, direction tag,
the type-matching value field initialized from the current value, and no
handle. -/
theorem c4_bind_envelope_contents (name : String) (period : Int)
    (container : List HalPin) (s' : RC)
    (hnd : (container.map HalPin.name).Nodup)
    (hstep : step (initRC name period container) (Event.setReadyEv true) = some s') :
    ∃ env c,
      s'.sent = [env] ∧
      env.mtype = MsgType.MT_HALRCOMP_BIND ∧
      env.comp = [c] ∧ env.pin = [] ∧ env.note = [] ∧ env.pparams = none ∧
      c.name = some name ∧
      c.pin.length = s'.pinsByName.length ∧
      (∀ pm ∈ c.pin, ∃ p ∈ container, p.enabled = true ∧ p.name ≠ "" ∧
        pm = bindPinMsg name p) ∧
      (∀ p ∈ container, p.enabled = true → p.name ≠ "" →
        bindPinMsg name p ∈ c.pin) ∧
      (∀ (cname : String) (p : HalPin),
        (bindPinMsg cname p).name = some (cname ++ "." ++ p.name) ∧
        (bindPinMsg cname p).ptype = some p.ptype ∧
        (bindPinMsg cname p).dir = some p.direction ∧
        (bindPinMsg cname p).handle = none ∧
        bindValueOk p (bindPinMsg cname p)) := by
  simp only [step] at hstep
  obtain rfl := Option.some.inj hstep
  refine ⟨bindEnvelope (addPins (connectSockets (updateState
      { initRC name period container with ready := true, cState := SocketState.Trying }
      State.Connecting))), _, rfl, rfl, rfl, rfl, rfl, rfl, rfl, ?_, ?_, ?_, ?_⟩
  · -- one pin sub-message per registered name
    show ((((container.foldl (fun reg p =>
        if p.name = "" ∨ p.enabled = false then reg else mapInsert p.name reg)
        []).filterMap (fun n => containerGet container n)).map
        (bindPinMsg name)).length)
      = ((container.foldl (fun reg p =>
        if p.name = "" ∨ p.enabled = false then reg else mapInsert p.name reg)
        []).length)
    rw [List.length_map]
    apply filterMap_length_of_all_some
    intro a ha
    rw [addPins_fold_mem container [] a] at ha
    rcases ha with ha | ⟨p, hp, hpa, _⟩
    · cases ha
    · rw [← hpa, containerGet_of_mem_nodup hnd hp]
      rfl
  · -- every sub-message comes from an enabled, named container pin
    intro pm hpm
    have hpm' : pm ∈ (((container.foldl (fun reg p =>
        if p.name = "" ∨ p.enabled = false then reg else mapInsert p.name reg)
        []).filterMap (fun n => containerGet container n)).map (bindPinMsg name)) := hpm
    obtain ⟨p, hp, rfl⟩ := List.mem_map.mp hpm'
    obtain ⟨n, hn, hcg⟩ := List.mem_filterMap.mp hp
    rw [addPins_fold_mem container [] n] at hn
    rcases hn with hn | ⟨q, hq, hqa, hok⟩
    · cases hn
    · push_neg at hok
      have hqget : containerGet container n = some q := by
        rw [← hqa]
        exact containerGet_of_mem_nodup hnd hq
      rw [hqget] at hcg
      obtain rfl := Option.some.inj hcg
      exact ⟨q, hq, by simpa using hok.2, hok.1, rfl⟩
  · -- every enabled, named container pin appears
    intro p hp hen hne
    show bindPinMsg name p ∈ (((container.foldl (fun reg p =>
        if p.name = "" ∨ p.enabled = false then reg else mapInsert p.name reg)
        []).filterMap (fun n => containerGet container n)).map (bindPinMsg name))
    apply List.mem_map_of_mem (bindPinMsg name)
    apply List.mem_filterMap.mpr
    refine ⟨p.name, ?_, containerGet_of_mem_nodup hnd hp⟩
    rw [addPins_fold_mem container [] p.name]
    exact Or.inr ⟨p, hp, rfl, by simp [hne, hen]⟩
  · -- structure of each constructed sub-message
    intro cname p
    cases hpt : p.ptype <;>
      simp [bindPinMsg, bindValueOk, hpt]

theorem c4_bind_envelope_contents_witness :
    c4State.sent.length = 1 ∧
    bindPinMsg "comp" pinX ∈
      ((c4State.sent.headD { mtype := MsgType.MT_OTHER }).comp.headD {}).pin ∧
    bindPinMsg "comp" pinY ∈
      ((c4State.sent.headD { mtype := MsgType.MT_OTHER }).comp.headD {}).pin := by
  obtain ⟨env, c, hsent, hmt, hcomp, hpin0, hnote, hpp, hcname, hlen, hfwd, hbwd, hstruct⟩ :=
    c4_bind_envelope_contents "comp" 3000 [pinX, pinY] c4State (by decide) (by decide)
  have henv : c4State.sent.headD { mtype := MsgType.MT_OTHER } = env := by
    rw [hsent]
    rfl
  refine ⟨by rw [hsent]; rfl, ?_, ?_⟩
  · rw [henv, hcomp]
    show bindPinMsg "comp" pinX ∈ c.pin
    exact hbwd pinX (by decide) (by decide) (by decide)
  · rw [henv, hcomp]
    show bindPinMsg "comp" pinY ∈ c.pin
    exact hbwd pinY (by decide) (by decide) (by decide)

end HalRemote